import Mathlib

/-!
# Bouncy-ball renderer (`Renderer.cpp`)

A shallow embedding of `bouncyball/app/src/main/cpp/Renderer.cpp`: the tasks that the
facade (`setWindow`, `start`, `stop`, `requestDraw`) posts to the worker thread, the
`ThreadState` they mutate, the draw cycle with its bounce animation, and the EGL
configuration choice made by the `ThreadState` constructor.

Conventions of the embedding.
* `float` is IEEE 754 binary32 (`Float32`): every operation rounds its exact result to the
  nearest binary32 value, ties to even; `0.8f`, `1.6f`, `1e9f` are the binary32 values nearest
  to the decimals (`0.8f` is `13421773 / 2^24`, a little above `4/5`).
* Calls into EGL, GLES, Swappy, the logger and the clock are recorded, in order, in a
  trace of `Event`s. What EGL answers is an input of each worker step (`EglReply`).
* `EGLSurface` handles are natural numbers, `0` being `EGL_NO_SURFACE`; EGL hands out
  the handles `1, 2, 3, ...` in creation order, so a new handle is never a live one.
-/

namespace Renderer

/-! ## IEEE 754 binary32 arithmetic

The type `float` of the source is IEEE 754 binary32. A finite value is the rational number it
stands for, together with the fact that binary32 represents it; negative zero, the two
infinities and NaN are values of their own (NaN payloads are not told apart). Every
arithmetic operation takes the exact rational result and rounds it to the nearest binary32
value, ties to the even significand, each operation on its own (no fused multiply-add). -/

/-- Round to the nearest integer, ties to the even one. -/
def roundHalfEven (q : ℚ) : ℤ :=
  if q - ⌊q⌋ < 1 / 2 then ⌊q⌋
  else if 1 / 2 < q - ⌊q⌋ then ⌊q⌋ + 1
  else if ⌊q⌋ % 2 = 0 then ⌊q⌋
  else ⌊q⌋ + 1

/-- Number of halvings that bring `n` below 2, at most `fuel` of them. With `fuel = n` this
is the position of the highest set bit of `n`. -/
def log2Aux : ℕ → ℕ → ℕ
  | 0, _ => 0
  | fuel + 1, n => if n < 2 then 0 else log2Aux fuel (n / 2) + 1

/-- The integer part of the binary logarithm of a positive rational: the bit lengths of
numerator and denominator give it up to one, a comparison settles it. -/
def floorLog2 (q : ℚ) : ℤ :=
  if (2 : ℚ) ^ ((log2Aux q.num.natAbs q.num.natAbs : ℤ) - (log2Aux q.den q.den : ℤ)) ≤ q
  then
    (log2Aux q.num.natAbs q.num.natAbs : ℤ) - (log2Aux q.den q.den : ℤ)
  else (log2Aux q.num.natAbs q.num.natAbs : ℤ) - (log2Aux q.den q.den : ℤ) - 1

/-- The exponent of the last significand bit of binary32 at the positive magnitude `q`:
24 significant bits, and never below `2 ^ (-149)`, the spacing of the subnormal values. -/
def ulpExponent (q : ℚ) : ℤ :=
  max (floorLog2 q - 23) (-149)

/-- The multiple of the unit in the last place nearest to the magnitude `q ≥ 0`, ties to the
even significand; the exponent is not bounded above here. -/
def roundMagnitude (q : ℚ) : ℚ :=
  if q = 0 then 0 else roundHalfEven (q / 2 ^ ulpExponent q) * 2 ^ ulpExponent q

/-- Round to nearest, ties to even, symmetric in the sign. -/
def signedRound (q : ℚ) : ℚ :=
  if q < 0 then -roundMagnitude (-q) else roundMagnitude q

/-- The largest finite binary32 value, `FLT_MAX`. -/
def maxFinite : ℚ := (2 ^ 24 - 1) * 2 ^ 104

/-- A rational that binary32 represents exactly: it is on the grid of its magnitude and not
above `FLT_MAX`. -/
def IsBinary32 (q : ℚ) : Prop :=
  roundMagnitude |q| = |q| ∧ |q| ≤ maxFinite

instance (q : ℚ) : Decidable (IsBinary32 q) :=
  inferInstanceAs (Decidable (roundMagnitude |q| = |q| ∧ |q| ≤ maxFinite))

/-- A binary32 value. `finite 0` is positive zero. -/
inductive Float32 where
  | finite (q : ℚ) (h : IsBinary32 q)
  | negZero
  | inf (negative : Bool)
  | nan
deriving DecidableEq

namespace Float32

/-- Positive zero. -/
def zero : Float32 :=
  finite 0 (by decide!)

/-- Deliver the exact result `q` of an operation: the nearest binary32 value, an infinity when
that lies beyond `FLT_MAX`. `negative` is the sign a zero result takes. (The last branch is
never taken: a rounded value within `FLT_MAX` is a binary32 value, `isBinary32_signedRound`.) -/
def round (negative : Bool) (q : ℚ) : Float32 :=
  if h : IsBinary32 (signedRound q) then
    if signedRound q = 0 ∧ negative = true then negZero else finite (signedRound q) h
  else if maxFinite < |signedRound q| then inf (decide (q < 0))
  else nan

/-- The rational a finite value stands for. -/
def toRat? : Float32 → Option ℚ
  | finite q _ => some q
  | negZero => some 0
  | _ => none

/-- The sign bit. -/
def sign : Float32 → Bool
  | finite q _ => decide (q < 0)
  | negZero => true
  | inf negative => negative
  | nan => false

/-- Is the value one of the two zeros? -/
def isZero : Float32 → Bool
  | finite q _ => decide (q = 0)
  | negZero => true
  | _ => false

/-- Unary minus: the sign bit is flipped. -/
def neg : Float32 → Float32
  | finite q h => if q = 0 then negZero else finite (-q) (by simpa [IsBinary32] using h)
  | negZero => zero
  | inf negative => inf (!negative)
  | nan => nan

/-- Absolute value: the sign bit is cleared. -/
def abs : Float32 → Float32
  | finite q h => finite |q| (by simpa [IsBinary32] using h)
  | negZero => zero
  | inf _ => inf false
  | nan => nan

/-- The product `a * b`. -/
def mul (a b : Float32) : Float32 :=
  match a.toRat?, b.toRat? with
  | some x, some y => round (xor a.sign b.sign) (x * y)
  | _, _ =>
    match a, b with
    | nan, _ => nan
    | _, nan => nan
    | inf s, y => if y.isZero then nan else inf (xor s y.sign)
    | x, inf s => if x.isZero then nan else inf (xor x.sign s)
    | _, _ => nan

/-- The quotient `a / b`. -/
def div (a b : Float32) : Float32 :=
  match a.toRat?, b.toRat? with
  | some x, some y =>
    if y = 0 then (if x = 0 then nan else inf (xor a.sign b.sign))
    else round (xor a.sign b.sign) (x / y)
  | _, _ =>
    match a, b with
    | nan, _ => nan
    | _, nan => nan
    | inf _, inf _ => nan
    | inf s, y => inf (xor s y.sign)
    | x, inf s => round (xor x.sign s) 0
    | _, _ => nan

/-- The sum `a + b`. An exact zero sum is positive unless both terms are negative zeros. -/
def add (a b : Float32) : Float32 :=
  match a.toRat?, b.toRat? with
  | some x, some y =>
    round (if x + y = 0 then a.sign && b.sign else decide (x + y < 0)) (x + y)
  | _, _ =>
    match a, b with
    | nan, _ => nan
    | _, nan => nan
    | inf s, inf t => if s = t then inf s else nan
    | inf s, _ => inf s
    | _, inf t => inf t
    | _, _ => nan

/-- The difference `a - b`. -/
def sub (a b : Float32) : Float32 :=
  match a.toRat?, b.toRat? with
  | some x, some y =>
    round (if x - y = 0 then a.sign && !b.sign else decide (x - y < 0)) (x - y)
  | _, _ =>
    match a, b with
    | nan, _ => nan
    | _, nan => nan
    | inf s, inf t => if s = t then nan else inf s
    | inf s, _ => inf s
    | _, inf t => inf (!t)
    | _, _ => nan

/-- The comparison `a < b`; false when either side is NaN. `a > b` is `lt b a`. -/
def lt (a b : Float32) : Bool :=
  match a.toRat?, b.toRat? with
  | some x, some y => decide (x < y)
  | _, _ =>
    match a, b with
    | nan, _ => false
    | _, nan => false
    | inf s, inf t => s && !t
    | inf s, _ => s
    | _, inf t => !t
    | _, _ => false

/-- Conversion of an integer to `float`. -/
def ofInt (n : ℤ) : Float32 :=
  round false n

/-- The value of a decimal floating literal with suffix `f`, such as `0.8f`. -/
def ofDecimal (q : ℚ) : Float32 :=
  round (decide (q < 0)) q

/-- The value is finite and its magnitude is at most `b`. -/
def absLe (a : Float32) (b : ℚ) : Prop :=
  ∃ q : ℚ, a.toRat? = some q ∧ |q| ≤ b

end Float32

/-- The rational value of the float `0.8f`. -/
def threshold : ℚ := 13421773 / 16777216

/-- The rational value of the float `1.6f`. -/
def stepBound : ℚ := 13421773 / 8388608

/-- The binary32 value next above `0.8f`. -/
def positionBound : ℚ := 13421774 / 16777216

/-! ## Data model -/

/-- EGL surface handle; zero stands for `EGL_NO_SURFACE`. -/
abbrev EGLSurface := Nat

/-- The null surface handle. -/
def EGL_NO_SURFACE : EGLSurface := 0

/-- Native window handle (`ANativeWindow *`, non-null). -/
abbrev Window := Nat

/-- The per-worker-thread state `Renderer::ThreadState`. `refreshPeriod` is the count of a
`std::chrono::nanoseconds`, `swapInterval`, `width`, `height` are `int32_t`, `x` and
`velocity` are `float`. -/
structure ThreadState where
  display : Nat
  config : Nat
  surface : EGLSurface
  context : Nat
  isStarted : Bool
  refreshPeriod : Int
  swapInterval : Int
  width : Int
  height : Int
  x : Float32
  velocity : Float32
deriving DecidableEq

/-- The closures handed to `mWorkerThread.run`, one constructor per lambda of
`Renderer.cpp`; `settingsChanged` is the task that calls
`ThreadState::onSettingsChanged` with the values read from `Settings`. -/
inductive Task where
  | setWindow (window : Option Window) (width height : Int)
  | start
  | stop
  | requestDraw
  | settingsChanged (refreshPeriod swapInterval : Int)
deriving DecidableEq

/-- Calls that leave the renderer, in program order. -/
inductive Event where
  | eglMakeCurrent (surface : EGLSurface) (ok : Bool)
  | eglDestroySurface (surface : EGLSurface)
  | eglCreateWindowSurface (window : Window) (surface : EGLSurface)
  | windowRelease (window : Window)
  | logError
  | sleep50ms
  | glClearColor
  | glClear
  | circleDraw (width height : Int) (x : Float32)
  | swap (surface : EGLSurface)
deriving DecidableEq

/-- What EGL answers during one task: the result of `eglMakeCurrent(EGL_NO_SURFACE)` in
`clearSurface`, whether `eglCreateWindowSurface` yields a surface, and the result of
`eglMakeCurrent` on the new surface. -/
structure EglReply where
  unbindOk : Bool
  createOk : Bool
  bindOk : Bool
deriving DecidableEq

/-- The worker thread and what surrounds it: the `ThreadState`, the pending tasks of
`mWorkerThread`, the surfaces EGL has created and not destroyed, the number of surfaces
EGL has created so far, and the trace of outgoing calls. -/
structure World where
  ts : ThreadState
  queue : List Task
  live : List EGLSurface
  created : Nat
  trace : List Event
deriving DecidableEq

/-! ## Environment -/

/-- Record an outgoing call. -/
def emit (e : Event) (w : World) : World :=
  { w with trace := w.trace ++ [e] }

/-- Modelled from the spec: `WorkerThread::run` (WorkerThread.h is not part of the
sources) appends the task to the FIFO queue and returns. -/
def run (t : Task) (w : World) : World :=
  { w with queue := w.queue ++ [t] }

/-! ## The facade -/

/-- The function `Renderer::setWindow`: post the setWindow task. -/
def setWindow (window : Option Window) (width height : Int) (w : World) : World :=
  run (.setWindow window width height) w

/-- The function `Renderer::start`: post the start task. -/
def start (w : World) : World :=
  run .start w

/-- The function `Renderer::stop`: post the stop task. -/
def stop (w : World) : World :=
  run .stop w

/-- The function `Renderer::requestDraw`: post a draw request. -/
def requestDraw (w : World) : World :=
  run .requestDraw w

/-- The EGL call `eglDestroySurface(display, surface)`. -/
def eglDestroySurface (s : EGLSurface) (w : World) : World :=
  emit (.eglDestroySurface s) { w with live := w.live.filter (fun l => l != s) }

/-- The EGL call `eglCreateWindowSurface(display, config, window, NULL)`: a fresh handle, or
`EGL_NO_SURFACE` when EGL fails. -/
def eglCreateWindowSurface (window : Window) (ok : Bool) (w : World) : EGLSurface × World :=
  if ok then
    (w.created + 1,
     emit (.eglCreateWindowSurface window (w.created + 1))
       { w with live := w.live ++ [w.created + 1], created := w.created + 1 })
  else
    (EGL_NO_SURFACE, emit (.eglCreateWindowSurface window EGL_NO_SURFACE) w)

/-! ## `Renderer::ThreadState` members -/

/-- The member `ThreadState::makeCurrent`: `eglMakeCurrent(display, surface, surface, context)`. -/
def makeCurrent (surface : EGLSurface) (ok : Bool) (w : World) : Bool × World :=
  (ok, emit (.eglMakeCurrent surface ok) w)

/-- The member `ThreadState::clearSurface`. -/
def clearSurface (unbindOk : Bool) (w : World) : World :=
  if w.ts.surface = EGL_NO_SURFACE then w
  else
    let w1 := (makeCurrent EGL_NO_SURFACE unbindOk w).2
    let w2 := eglDestroySurface w1.ts.surface w1
    { w2 with ts := { w2.ts with surface := EGL_NO_SURFACE } }

/-- The member `ThreadState::onSettingsChanged`. -/
def onSettingsChanged (refreshPeriod swapInterval : Int) (ts : ThreadState) : ThreadState :=
  { ts with refreshPeriod := refreshPeriod, swapInterval := swapInterval }

/-! ## The draw cycle -/

/-- Two's-complement wrap of a 64-bit signed product (the representation of
`std::chrono::nanoseconds`). -/
def toInt64 (n : Int) : Int :=
  (n + 2 ^ 63) % 2 ^ 64 - 2 ^ 63

/-- The value `deltaSeconds` of `Renderer::draw`:
`(refreshPeriod * swapInterval).count() / 1e9f`. The 64-bit count is converted to `float`
and divided by the float `1e9f`. -/
def deltaSeconds (ts : ThreadState) : Float32 :=
  Float32.div (Float32.ofInt (toInt64 (ts.refreshPeriod * ts.swapInterval)))
    (Float32.ofDecimal 1000000000)

/-- The animation update of `Renderer::draw` (lines 159-167) on position and velocity. -/
def animate (dt : Float32) (ts : ThreadState) : ThreadState :=
  let ts1 := { ts with x := Float32.add ts.x (Float32.mul ts.velocity dt) }
  if Float32.lt (Float32.ofDecimal (8 / 10)) ts1.x then
    let ts2 :=
      { ts1 with velocity := Float32.mul ts1.velocity (Float32.neg (Float32.ofDecimal 1)) }
    { ts2 with x := Float32.sub (Float32.ofDecimal (16 / 10)) ts2.x }
  else if Float32.lt ts1.x (Float32.neg (Float32.ofDecimal (8 / 10))) then
    let ts2 :=
      { ts1 with velocity := Float32.mul ts1.velocity (Float32.neg (Float32.ofDecimal 1)) }
    { ts2 with x := Float32.sub (Float32.neg (Float32.ofDecimal (16 / 10))) ts2.x }
  else ts1

/-- The function `Renderer::draw`. -/
def draw (w : World) : World :=
  if w.ts.surface = EGL_NO_SURFACE then
    requestDraw (emit .sleep50ms w)
  else
    let w1 := { w with ts := animate (deltaSeconds w.ts) w.ts }
    let w2 := emit .glClear (emit .glClearColor w1)
    let w3 := emit (.circleDraw w2.ts.width w2.ts.height w2.ts.x) w2
    let w4 := emit (.swap w3.ts.surface) w3
    requestDraw w4

/-! ## Task bodies -/

/-- Body of the task posted by `Renderer::setWindow`. -/
def setWindowTask (window : Option Window) (width height : Int) (r : EglReply)
    (w : World) : World :=
  let w1 := clearSurface r.unbindOk w
  match window with
  | none => w1
  | some win =>
    let (s, w2) := eglCreateWindowSurface win r.createOk w1
    let w3 := { w2 with ts := { w2.ts with surface := s } }
    let w4 := emit (.windowRelease win) w3
    let (ok, w5) := makeCurrent w4.ts.surface r.bindOk w4
    if !ok then
      let w6 := emit .logError w5
      { w6 with ts := { w6.ts with surface := EGL_NO_SURFACE } }
    else
      { w5 with ts := { w5.ts with width := width, height := height } }

/-- Body of the task posted by `Renderer::start`. -/
def startTask (w : World) : World :=
  requestDraw { w with ts := { w.ts with isStarted := true } }

/-- Body of the task posted by `Renderer::stop`. -/
def stopTask (w : World) : World :=
  { w with ts := { w.ts with isStarted := false } }

/-- Body of the task posted by `Renderer::requestDraw`. -/
def requestDrawTask (w : World) : World :=
  if w.ts.isStarted then draw w else w

/-- Execute one task body on the worker thread. -/
def runTask (t : Task) (r : EglReply) (w : World) : World :=
  match t with
  | .setWindow window width height => setWindowTask window width height r w
  | .start => startTask w
  | .stop => stopTask w
  | .requestDraw => requestDrawTask w
  | .settingsChanged rp si => { w with ts := onSettingsChanged rp si w.ts }

/-! ## The executor -/

/-- Modelled from the spec: the loop of the worker thread (WorkerThread.h is not part of
the sources) pops the oldest pending task and executes it; with nothing pending it does
nothing. -/
def step (r : EglReply) (w : World) : World :=
  match w.queue with
  | [] => w
  | t :: rest => runTask t r { w with queue := rest }

/-- What can happen next: some thread calls the facade (the task is appended to the queue)
or the worker executes the oldest pending task, EGL answering `r`. -/
inductive Action where
  | call (t : Task)
  | work (r : EglReply)
deriving DecidableEq

/-- One action; a facade call of task `t` is `run t`, which is what `setWindow`, `start`,
`stop` and `requestDraw` do. -/
def act (w : World) (a : Action) : World :=
  match a with
  | .call t => run t w
  | .work r => step r w

/-- A schedule: actions in the order they happen. -/
def exec (w : World) (as : List Action) : World :=
  as.foldl act w

/-! ## Observations -/

/-- Number of frames presented: calls of `Swappy::swap`. -/
def framesPresented (w : World) : Nat :=
  w.trace.countP (fun e => match e with | .swap _ => true | _ => false)

/-- Number of executions of `Renderer::draw`: each one either sleeps (no surface) or
presents a frame. -/
def drawCycles (w : World) : Nat :=
  w.trace.countP (fun e => match e with | .swap _ => true | .sleep50ms => true | _ => false)

/-- Number of pending draw-request tasks. -/
def pendingDraws (w : World) : Nat :=
  w.queue.count Task.requestDraw

/-- Number of pending start tasks. -/
def pendingStarts (w : World) : Nat :=
  w.queue.count Task.start

/-- The surfaces created and not destroyed are exactly the bound one, if any. -/
def SurfaceTracked (w : World) : Prop :=
  w.live = (if w.ts.surface = EGL_NO_SURFACE then [] else [w.ts.surface]) ∧
    w.ts.surface ≤ w.created

/-- Does the worker execute a start task somewhere along the schedule `as` from `w`? -/
def startRuns (w : World) : List Action → Bool
  | [] => false
  | .call t :: as => startRuns (run t w) as
  | .work r :: as => (w.queue.head? == some Task.start) || startRuns (step r w) as

/-- Every setWindow call of the schedule that passes a window passes a positive width and
a positive height. -/
def PositiveSizes (as : List Action) : Prop :=
  ∀ (win : Window) (width height : Int),
    Action.call (.setWindow (some win) width height) ∈ as → 0 < width ∧ 0 < height

/-- The schedule consists of start calls and worker steps only. -/
def OnlyStartCalls (as : List Action) : Prop :=
  ∀ a ∈ as, a = Action.call .start ∨ ∃ r, a = Action.work r

/-! ## Configuration choice in the `ThreadState` constructor -/

/-- EGL configuration handle (`EGLConfig`). -/
abbrev EGLConfig := Nat

/-- The configuration attributes the constructor asks about. -/
inductive ConfigAttrib where
  | redSize
  | greenSize
  | blueSize
  | depthSize
deriving DecidableEq

/-- The answers of `eglGetConfigAttrib(display, config, attribute, &outValue)`: `none` when
the call returns `EGL_FALSE`, otherwise the value written to `outValue`. -/
abbrev ConfigTable := EGLConfig → ConfigAttrib → Option Int

/-- The member `ThreadState::configHasAttribute`. It has no configuration
parameter: the `config` it passes to `eglGetConfigAttrib` is the member `this->config`. -/
def configHasAttribute (egl : ConfigTable) (thisConfig : EGLConfig) (attr : ConfigAttrib)
    (value : Int) : Bool :=
  match egl thisConfig attr with
  | none => false
  | some outValue => outValue == value

/-- The lambda `configMatches` of the constructor. Its parameter `config` is not used in
its body: every `configHasAttribute` call inside is a call on `this`. -/
def configMatches (egl : ConfigTable) (thisConfig : EGLConfig) (_config : EGLConfig) : Bool :=
  if !configHasAttribute egl thisConfig .redSize 8 then false
  else if !configHasAttribute egl thisConfig .greenSize 8 then false
  else if !configHasAttribute egl thisConfig .blueSize 8 then false
  else configHasAttribute egl thisConfig .depthSize 0

/-- The configuration assigned to `config` by the constructor (lines 103-106):
`std::find_if` over `supportedConfigs` with `configMatches`, else `supportedConfigs[0]`.
`thisConfig` is the value the member `config` holds before the assignment. `none` stands
for indexing an empty vector. -/
def chooseConfig (egl : ConfigTable) (thisConfig : EGLConfig)
    (supportedConfigs : List EGLConfig) : Option EGLConfig :=
  match supportedConfigs.find? (configMatches egl thisConfig) with
  | some c => some c
  | none => supportedConfigs.head?

/-- The property a configuration must have according to the specification: red, green and
blue sizes 8 and depth size 0. -/
def specMatches (egl : ConfigTable) (config : EGLConfig) : Bool :=
  egl config .redSize == some 8 && egl config .greenSize == some 8 &&
    egl config .blueSize == some 8 && egl config .depthSize == some 0

/-- What `eglChooseConfig` enumerates for the request of the constructor (lines 81-92):
`EGL_RED_SIZE`, `EGL_GREEN_SIZE` and `EGL_BLUE_SIZE` 8 ask for at least 8 bits each; the
depth size is not requested. -/
def meetsRequest (egl : ConfigTable) (config : EGLConfig) : Bool :=
  (match egl config .redSize with
    | some v => decide (8 ≤ v)
    | none => false) &&
  (match egl config .greenSize with
    | some v => decide (8 ≤ v)
    | none => false) &&
  (match egl config .blueSize with
    | some v => decide (8 ≤ v)
    | none => false)

/-- The choice described by the specification: the first enumerated configuration with
8-bit red, green, blue and zero depth bits, else the first enumerated configuration. -/
def specChooseConfig (egl : ConfigTable) (supportedConfigs : List EGLConfig) :
    Option EGLConfig :=
  match supportedConfigs.find? (specMatches egl) with
  | some c => some c
  | none => supportedConfigs.head?

/-! ## Concrete scenarios -/

/-- A stopped thread state with no surface, the ball at position `0.0f` moving at `1.0f`. -/
def idleState : ThreadState :=
  { display := 1, config := 1, surface := EGL_NO_SURFACE, context := 1, isStarted := false,
    refreshPeriod := 16666667, swapInterval := 1, width := 0, height := 0,
    x := Float32.zero, velocity := Float32.ofDecimal 1 }

/-- A stopped world with nothing pending and no surface created yet. -/
def idleWorld : World :=
  { ts := idleState, queue := [], live := [], created := 0, trace := [] }

/-- The scenario of the specification: a bound surface, refresh period 16 666 667 ns, swap
interval 1, position `0.79f`, velocity `1.0f`. -/
def scenarioWorld : World :=
  { ts := { idleState with
      surface := 1, width := 1080, height := 1920, x := Float32.ofDecimal (79 / 100) },
    queue := [], live := [1], created := 1, trace := [] }

/-- A bound surface with a refresh period of one second, swap interval 1, position `0.5f` and
velocity `0.3f`: the advanced position is exactly the float `0.8f`. -/
def edgeWorld : World :=
  { ts := { idleState with
      surface := 1, width := 1080, height := 1920, refreshPeriod := 1000000000,
      x := Float32.ofDecimal (5 / 10), velocity := Float32.ofDecimal (3 / 10) },
    queue := [], live := [1], created := 1, trace := [] }

/-- A bound surface with a refresh period of one second, swap interval 1, position `0.8f` and
velocity `1.6f`. -/
def cornerWorld : World :=
  { ts := { idleState with
      surface := 1, width := 1080, height := 1920, refreshPeriod := 1000000000,
      x := Float32.ofDecimal (8 / 10), velocity := Float32.ofDecimal (16 / 10) },
    queue := [], live := [1], created := 1, trace := [] }

/-- A bound surface whose refresh period of 2^62 ns, times the swap interval 2, does not fit
the signed 64-bit nanosecond count. -/
def overflowWorld : World :=
  { ts := { idleState with
      surface := 1, width := 1080, height := 1920, refreshPeriod := 4611686018427387904,
      swapInterval := 2 },
    queue := [], live := [1], created := 1, trace := [] }

/-- An EGL answer where every call succeeds. -/
def allOk : EglReply := { unbindOk := true, createOk := true, bindOk := true }

/-- An EGL answer where the new surface is created but cannot be made current. -/
def bindFails : EglReply := { unbindOk := true, createOk := true, bindOk := false }

/-- A configuration table with two configurations: `1` has 10-bit red, green and blue
channels, `2` has 8-bit ones, both without depth buffer; any other handle is invalid. -/
def twoConfigs : ConfigTable := fun c a =>
  if c = 1 then
    (match a with
     | .redSize => some 10
     | .greenSize => some 10
     | .blueSize => some 10
     | .depthSize => some 0)
  else if c = 2 then
    (match a with
     | .redSize => some 8
     | .greenSize => some 8
     | .blueSize => some 8
     | .depthSize => some 0)
  else none

/-- A running world on the scenario's surface in which a stop task and a draw request are
pending. -/
def runningWorld : World :=
  { scenarioWorld with
    ts := { scenarioWorld.ts with isStarted := true }
    queue := [Task.stop, Task.requestDraw] }

/-! ## Binary logarithm -/

theorem log2Aux_spec (fuel : ℕ) : ∀ n : ℕ, n ≤ fuel → 0 < n →
    2 ^ log2Aux fuel n ≤ n ∧ n < 2 ^ (log2Aux fuel n + 1) := by
  induction fuel with
  | zero => intro n h1 h2; omega
  | succ fuel ih =>
    intro n h1 h2
    unfold log2Aux
    split_ifs with h
    · constructor <;> simp <;> omega
    · obtain ⟨i1, i2⟩ := ih (n / 2) (by omega) (by omega)
      rw [pow_succ] at i2 ⊢
      constructor
      · omega
      · rw [pow_succ]; omega

theorem two_zpow_pos (e : ℤ) : (0 : ℚ) < 2 ^ e := zpow_pos (by norm_num) e

theorem floorLog2_spec (q : ℚ) (hq : 0 < q) :
    (2 : ℚ) ^ floorLog2 q ≤ q ∧ q < 2 ^ (floorLog2 q + 1) := by
  have hnum : 0 < q.num := Rat.num_pos.mpr hq
  have ha : 0 < q.num.natAbs := Int.natAbs_pos.mpr (ne_of_gt hnum)
  have hd : 0 < q.den := q.den_pos
  obtain ⟨a1, a2⟩ := log2Aux_spec q.num.natAbs q.num.natAbs le_rfl ha
  obtain ⟨d1, d2⟩ := log2Aux_spec q.den q.den le_rfl hd
  set ka := log2Aux q.num.natAbs q.num.natAbs with hka
  set kd := log2Aux q.den q.den with hkd
  have hqe : q = (q.num.natAbs : ℚ) / (q.den : ℚ) := by
    have h1 : ((q.num.natAbs : ℤ) : ℚ) = (q.num : ℚ) := by
      rw [Int.natAbs_of_nonneg (le_of_lt hnum)]
    have h2 : ((q.num.natAbs : ℕ) : ℚ) = ((q.num.natAbs : ℤ) : ℚ) :=
      (Int.cast_natCast _).symm
    rw [h2, h1]
    exact (Rat.num_div_den q).symm
  have hdq : (0 : ℚ) < (q.den : ℚ) := by exact_mod_cast hd
  have A1 : ((2 : ℚ) ^ ka) ≤ (q.num.natAbs : ℚ) := by exact_mod_cast a1
  have A2 : (q.num.natAbs : ℚ) < (2 : ℚ) ^ (ka + 1) := by exact_mod_cast a2
  have D1 : ((2 : ℚ) ^ kd) ≤ (q.den : ℚ) := by exact_mod_cast d1
  have D2 : (q.den : ℚ) < (2 : ℚ) ^ (kd + 1) := by exact_mod_cast d2
  have hup : q < 2 ^ ((ka : ℤ) - (kd : ℤ) + 1) := by
    have e : (2 : ℚ) ^ ((ka : ℤ) - (kd : ℤ) + 1) = 2 ^ (ka + 1) / 2 ^ kd := by
      rw [show ((ka : ℤ) - (kd : ℤ) + 1) = ((ka + 1 : ℕ) : ℤ) - ((kd : ℕ) : ℤ) by
        push_cast; ring]
      rw [zpow_sub₀ (by norm_num : (2 : ℚ) ≠ 0), zpow_natCast, zpow_natCast]
    rw [e, hqe, div_lt_div_iff₀ hdq (by positivity)]
    calc (q.num.natAbs : ℚ) * 2 ^ kd < 2 ^ (ka + 1) * 2 ^ kd := by
          apply mul_lt_mul_of_pos_right A2 (by positivity)
      _ ≤ 2 ^ (ka + 1) * (q.den : ℚ) := by
          apply mul_le_mul_of_nonneg_left D1 (by positivity)
  have hlo : (2 : ℚ) ^ ((ka : ℤ) - (kd : ℤ) - 1) ≤ q := by
    have e : (2 : ℚ) ^ ((ka : ℤ) - (kd : ℤ) - 1) = 2 ^ ka / 2 ^ (kd + 1) := by
      rw [show ((ka : ℤ) - (kd : ℤ) - 1) = ((ka : ℕ) : ℤ) - ((kd + 1 : ℕ) : ℤ) by
        push_cast; ring]
      rw [zpow_sub₀ (by norm_num : (2 : ℚ) ≠ 0), zpow_natCast, zpow_natCast]
    rw [e, hqe, div_le_div_iff₀ (by positivity) hdq]
    calc (2 : ℚ) ^ ka * (q.den : ℚ) ≤ (q.num.natAbs : ℚ) * (q.den : ℚ) := by
          apply mul_le_mul_of_nonneg_right A1 (le_of_lt hdq)
      _ ≤ (q.num.natAbs : ℚ) * 2 ^ (kd + 1) := by
          apply mul_le_mul_of_nonneg_left (le_of_lt D2) (by positivity)
  unfold floorLog2
  rw [← hka, ← hkd]
  split_ifs with h
  · exact ⟨h, hup⟩
  · refine ⟨hlo, ?_⟩
    rw [show ((ka : ℤ) - (kd : ℤ) - 1 + 1) = (ka : ℤ) - (kd : ℤ) by ring]
    exact lt_of_not_le h

theorem floorLog2_unique (q : ℚ) (hq : 0 < q) (k : ℤ) (h1 : (2 : ℚ) ^ k ≤ q)
    (h2 : q < 2 ^ (k + 1)) : floorLog2 q = k := by
  obtain ⟨s1, s2⟩ := floorLog2_spec q hq
  have a : floorLog2 q < k + 1 :=
    (zpow_lt_zpow_iff_right₀ (by norm_num : (1 : ℚ) < 2)).mp (lt_of_le_of_lt s1 h2)
  have b : k < floorLog2 q + 1 :=
    (zpow_lt_zpow_iff_right₀ (by norm_num : (1 : ℚ) < 2)).mp (lt_of_le_of_lt h1 s2)
  omega

theorem floorLog2_lt (q : ℚ) (hq : 0 < q) (k : ℤ) (h : q < 2 ^ k) : floorLog2 q < k :=
  (zpow_lt_zpow_iff_right₀ (by norm_num : (1 : ℚ) < 2)).mp
    (lt_of_le_of_lt (floorLog2_spec q hq).1 h)

theorem floorLog2_mono (p q : ℚ) (hp : 0 < p) (hpq : p ≤ q) : floorLog2 p ≤ floorLog2 q := by
  have h1 := (floorLog2_spec p hp).1
  have h2 := (floorLog2_spec q (lt_of_lt_of_le hp hpq)).2
  have := floorLog2_lt p hp _ (lt_of_le_of_lt hpq h2)
  omega

/-! ## Unit in the last place -/

theorem ulpExponent_ge (q : ℚ) : -149 ≤ ulpExponent q := le_max_right _ _

theorem lt_ulpExponent (q : ℚ) (hq : 0 < q) : q < 2 ^ (ulpExponent q + 24) := by
  have h := (floorLog2_spec q hq).2
  apply lt_of_lt_of_le h
  apply zpow_le_zpow_right₀ (by norm_num)
  have : floorLog2 q - 23 ≤ ulpExponent q := le_max_left _ _
  omega

theorem ulpExponent_le_self (q : ℚ) (hq : 0 < q) (h : ulpExponent q ≠ -149) :
    (2 : ℚ) ^ (ulpExponent q + 23) ≤ q := by
  have h1 : ulpExponent q = floorLog2 q - 23 := by
    unfold ulpExponent at h ⊢
    rcases max_cases (floorLog2 q - 23) (-149) with ⟨a, -⟩ | ⟨a, -⟩
    · exact a
    · exact absurd a h
  rw [h1, show floorLog2 q - 23 + 23 = floorLog2 q by ring]
  exact (floorLog2_spec q hq).1

theorem ulpExponent_mono (p q : ℚ) (hp : 0 < p) (hpq : p ≤ q) :
    ulpExponent p ≤ ulpExponent q := by
  unfold ulpExponent
  have := floorLog2_mono p q hp hpq
  exact max_le_max (by omega) le_rfl

theorem ulpExponent_le (q : ℚ) (hq : 0 < q) (e : ℤ) (he : -149 ≤ e) (h : q < 2 ^ (e + 24)) :
    ulpExponent q ≤ e := by
  have := floorLog2_lt q hq _ h
  unfold ulpExponent
  exact max_le (by omega) he

/-! ## Rounding to an integer -/

theorem roundHalfEven_near (q : ℚ) :
    (roundHalfEven q : ℚ) - 1 / 2 ≤ q ∧ q ≤ (roundHalfEven q : ℚ) + 1 / 2 := by
  have h1 := Int.floor_le q
  have h2 := Int.lt_floor_add_one q
  unfold roundHalfEven
  split_ifs with a b c
  · constructor <;> linarith
  · constructor <;> push_cast <;> linarith
  · constructor <;> linarith
  · have : q - ⌊q⌋ = 1 / 2 := le_antisymm (not_lt.mp b) (not_lt.mp a)
    constructor <;> push_cast <;> linarith

theorem roundHalfEven_intCast (n : ℤ) : roundHalfEven (n : ℚ) = n := by
  unfold roundHalfEven
  rw [Int.floor_intCast]
  simp

theorem roundHalfEven_mono (p q : ℚ) (h : p ≤ q) : roundHalfEven p ≤ roundHalfEven q := by
  rcases eq_or_lt_of_le h with h | h
  · rw [h]
  · have h1 := (roundHalfEven_near p).1
    have h2 := (roundHalfEven_near q).2
    have : (roundHalfEven p : ℚ) < (roundHalfEven q : ℚ) + 1 := by linarith
    have : roundHalfEven p < roundHalfEven q + 1 := by exact_mod_cast this
    omega

theorem le_roundHalfEven (n : ℤ) (q : ℚ) (h : (n : ℚ) ≤ q) : n ≤ roundHalfEven q := by
  have := roundHalfEven_mono _ _ h
  rwa [roundHalfEven_intCast] at this

theorem roundHalfEven_le (n : ℤ) (q : ℚ) (h : q ≤ (n : ℚ)) : roundHalfEven q ≤ n := by
  have := roundHalfEven_mono _ _ h
  rwa [roundHalfEven_intCast] at this

/-! ## Rounding a magnitude to the binary32 grid -/

theorem roundMagnitude_of_pos (q : ℚ) (hq : 0 < q) :
    roundMagnitude q = roundHalfEven (q / 2 ^ ulpExponent q) * 2 ^ ulpExponent q := by
  unfold roundMagnitude
  rw [if_neg (ne_of_gt hq)]

theorem roundMagnitude_zero : roundMagnitude 0 = 0 := by
  unfold roundMagnitude
  rw [if_pos rfl]

theorem roundMagnitude_nonneg (q : ℚ) (hq : 0 ≤ q) : 0 ≤ roundMagnitude q := by
  rcases eq_or_lt_of_le hq with h | h
  · rw [← h, roundMagnitude_zero]
  · rw [roundMagnitude_of_pos q h]
    apply mul_nonneg _ (le_of_lt (two_zpow_pos _))
    have : (0 : ℤ) ≤ roundHalfEven (q / 2 ^ ulpExponent q) := by
      apply le_roundHalfEven
      push_cast
      exact div_nonneg hq (le_of_lt (two_zpow_pos _))
    exact_mod_cast this

/-- The significand chosen for a positive magnitude has at most 24 bits, one carry
included. -/
theorem significand_le (q : ℚ) (hq : 0 < q) :
    roundHalfEven (q / 2 ^ ulpExponent q) ≤ 2 ^ 24 := by
  apply roundHalfEven_le
  rw [div_le_iff₀ (two_zpow_pos _)]
  have h := lt_ulpExponent q hq
  rw [zpow_add₀ (by norm_num : (2 : ℚ) ≠ 0)] at h
  push_cast
  have e : (2 : ℚ) ^ (24 : ℤ) = 2 ^ 24 := by norm_num
  rw [e] at h
  linarith

theorem significand_ge (q : ℚ) (hq : 0 < q) (h : ulpExponent q ≠ -149) :
    2 ^ 23 ≤ roundHalfEven (q / 2 ^ ulpExponent q) := by
  apply le_roundHalfEven
  rw [le_div_iff₀ (two_zpow_pos _)]
  have h := ulpExponent_le_self q hq h
  rw [zpow_add₀ (by norm_num : (2 : ℚ) ≠ 0)] at h
  push_cast
  have e : (2 : ℚ) ^ (23 : ℤ) = 2 ^ 23 := by norm_num
  rw [e] at h
  linarith

theorem roundMagnitude_mono (p q : ℚ) (hp : 0 ≤ p) (hpq : p ≤ q) :
    roundMagnitude p ≤ roundMagnitude q := by
  rcases eq_or_lt_of_le hp with h | hp
  · rw [← h, roundMagnitude_zero]
    exact roundMagnitude_nonneg q (le_trans hp hpq)
  have hq : 0 < q := lt_of_lt_of_le hp hpq
  rw [roundMagnitude_of_pos p hp, roundMagnitude_of_pos q hq]
  have he := ulpExponent_mono p q hp hpq
  rcases eq_or_lt_of_le he with he | he
  · rw [he]
    apply mul_le_mul_of_nonneg_right _ (le_of_lt (two_zpow_pos _))
    have : roundHalfEven (p / 2 ^ ulpExponent q) ≤ roundHalfEven (q / 2 ^ ulpExponent q) := by
      apply roundHalfEven_mono
      exact div_le_div_of_nonneg_right hpq (le_of_lt (two_zpow_pos _))
    exact_mod_cast this
  · have hq149 : ulpExponent q ≠ -149 := by
      have := ulpExponent_ge p
      omega
    have h1 : ((roundHalfEven (p / 2 ^ ulpExponent p) : ℤ) : ℚ) ≤ 2 ^ 24 := by
      exact_mod_cast significand_le p hp
    have h2 : (2 : ℚ) ^ 23 ≤ ((roundHalfEven (q / 2 ^ ulpExponent q) : ℤ) : ℚ) := by
      exact_mod_cast significand_ge q hq hq149
    calc (roundHalfEven (p / 2 ^ ulpExponent p) : ℚ) * 2 ^ ulpExponent p
        ≤ 2 ^ 24 * 2 ^ ulpExponent p :=
          mul_le_mul_of_nonneg_right h1 (le_of_lt (two_zpow_pos _))
      _ = 2 ^ (ulpExponent p + 24) := by
          rw [zpow_add₀ (by norm_num : (2 : ℚ) ≠ 0)]; norm_num; ring
      _ ≤ 2 ^ (ulpExponent q + 23) := zpow_le_zpow_right₀ (by norm_num) (by omega)
      _ = 2 ^ 23 * 2 ^ ulpExponent q := by
          rw [zpow_add₀ (by norm_num : (2 : ℚ) ≠ 0)]; norm_num; ring
      _ ≤ (roundHalfEven (q / 2 ^ ulpExponent q) : ℚ) * 2 ^ ulpExponent q :=
          mul_le_mul_of_nonneg_right h2 (le_of_lt (two_zpow_pos _))

/-- A positive multiple of `2 ^ e` below `2 ^ (e + 24)`, with `e` not below `-149`, is on the
binary32 grid: rounding leaves it as it is. -/
theorem roundMagnitude_fixed (r : ℚ) (hr : 0 < r) (z : ℤ) (e : ℤ) (hz : r = z * 2 ^ e)
    (he : -149 ≤ e) (hlt : r < 2 ^ (e + 24)) : roundMagnitude r = r := by
  have hu := ulpExponent_le r hr e he hlt
  rw [roundMagnitude_of_pos r hr]
  obtain ⟨n, hn⟩ := Int.eq_ofNat_of_zero_le (show 0 ≤ e - ulpExponent r by omega)
  have hdiv : r / 2 ^ ulpExponent r = ((z * 2 ^ n : ℤ) : ℚ) := by
    rw [div_eq_iff (ne_of_gt (two_zpow_pos _))]
    push_cast
    rw [mul_assoc, ← zpow_natCast, ← zpow_add₀ (by norm_num : (2 : ℚ) ≠ 0), ← hn,
      show e - ulpExponent r + ulpExponent r = e by ring]
    exact hz
  rw [hdiv, roundHalfEven_intCast, ← hdiv]
  exact div_mul_cancel₀ _ (ne_of_gt (two_zpow_pos _))

theorem roundMagnitude_idem (q : ℚ) (hq : 0 ≤ q) :
    roundMagnitude (roundMagnitude q) = roundMagnitude q := by
  rcases eq_or_lt_of_le hq with h | hq
  · rw [← h, roundMagnitude_zero, roundMagnitude_zero]
  rcases eq_or_lt_of_le (roundMagnitude_nonneg q (le_of_lt hq)) with h0 | hpos
  · rw [← h0, roundMagnitude_zero]
  have hrm := roundMagnitude_of_pos q hq
  have hle := significand_le q hq
  rcases eq_or_lt_of_le hle with heq | hlt
  · apply roundMagnitude_fixed _ hpos (2 ^ 23) (ulpExponent q + 1) _
      (by have := ulpExponent_ge q; omega)
    · rw [hrm, heq]
      push_cast
      rw [show ulpExponent q + 1 + 24 = ulpExponent q + 25 by ring,
        zpow_add₀ (by norm_num : (2 : ℚ) ≠ 0)]
      have : (2 : ℚ) ^ (25 : ℤ) = 2 ^ 25 := by norm_num
      rw [this]
      have := two_zpow_pos (ulpExponent q)
      nlinarith
    · rw [hrm, heq]
      push_cast
      rw [zpow_add₀ (by norm_num : (2 : ℚ) ≠ 0)]
      norm_num
      ring
  · apply roundMagnitude_fixed _ hpos (roundHalfEven (q / 2 ^ ulpExponent q)) (ulpExponent q)
      hrm (ulpExponent_ge q)
    rw [hrm, zpow_add₀ (by norm_num : (2 : ℚ) ≠ 0)]
    have h24 : (2 : ℚ) ^ (24 : ℤ) = 2 ^ 24 := by norm_num
    rw [h24, mul_comm ((2 : ℚ) ^ ulpExponent q)]
    apply mul_lt_mul_of_pos_right _ (two_zpow_pos _)
    exact_mod_cast hlt

/-! ## Rounding with a sign -/

theorem signedRound_of_nonneg (q : ℚ) (hq : 0 ≤ q) : signedRound q = roundMagnitude q := by
  unfold signedRound
  rw [if_neg (not_lt.mpr hq)]

theorem signedRound_of_neg (q : ℚ) (hq : q < 0) : signedRound q = -roundMagnitude (-q) := by
  unfold signedRound
  rw [if_pos hq]

theorem signedRound_zero : signedRound 0 = 0 := by
  rw [signedRound_of_nonneg 0 le_rfl, roundMagnitude_zero]

theorem signedRound_neg (q : ℚ) : signedRound (-q) = -signedRound q := by
  rcases lt_trichotomy q 0 with h | h | h
  · rw [signedRound_of_neg q h, signedRound_of_nonneg (-q) (by linarith), neg_neg]
  · rw [h, neg_zero, signedRound_of_nonneg 0 le_rfl, roundMagnitude_zero, neg_zero]
  · rw [signedRound_of_neg (-q) (by linarith), signedRound_of_nonneg q (le_of_lt h), neg_neg]

theorem signedRound_mono (p q : ℚ) (h : p ≤ q) : signedRound p ≤ signedRound q := by
  rcases lt_or_le p 0 with hp | hp <;> rcases lt_or_le q 0 with hq | hq
  · rw [signedRound_of_neg p hp, signedRound_of_neg q hq]
    have := roundMagnitude_mono (-q) (-p) (by linarith) (by linarith)
    linarith
  · rw [signedRound_of_neg p hp, signedRound_of_nonneg q hq]
    have h1 := roundMagnitude_nonneg (-p) (by linarith)
    have h2 := roundMagnitude_nonneg q hq
    linarith
  · linarith
  · rw [signedRound_of_nonneg p hp, signedRound_of_nonneg q hq]
    exact roundMagnitude_mono p q hp h

theorem abs_signedRound (q : ℚ) : |signedRound q| = roundMagnitude |q| := by
  rcases lt_or_le q 0 with h | h
  · rw [signedRound_of_neg q h, abs_neg, abs_of_neg h,
      abs_of_nonneg (roundMagnitude_nonneg _ (by linarith))]
  · rw [signedRound_of_nonneg q h, abs_of_nonneg h, abs_of_nonneg (roundMagnitude_nonneg _ h)]

theorem isBinary32_signedRound (q : ℚ) (h : |signedRound q| ≤ maxFinite) :
    IsBinary32 (signedRound q) := by
  refine ⟨?_, h⟩
  rw [abs_signedRound, roundMagnitude_idem _ (abs_nonneg q)]

theorem signedRound_of_isBinary32 (q : ℚ) (h : IsBinary32 q) : signedRound q = q := by
  have h1 := h.1
  rcases lt_or_le q 0 with hq | hq
  · rw [abs_of_neg hq] at h1
    rw [signedRound_of_neg q hq, h1, neg_neg]
  · rw [abs_of_nonneg hq] at h1
    rw [signedRound_of_nonneg q hq, h1]

namespace Float32

theorem finite_congr (p q : ℚ) (hp : IsBinary32 p) (hq : IsBinary32 q) (h : p = q) :
    finite p hp = finite q hq := by
  subst h
  rfl

theorem round_toRat (s : Bool) (q : ℚ) (h : |signedRound q| ≤ maxFinite) :
    (round s q).toRat? = some (signedRound q) := by
  unfold round
  rw [dif_pos (isBinary32_signedRound q h)]
  split_ifs with h0
  · rw [h0.1]; rfl
  · rfl

theorem toRat_round (s : Bool) (q r : ℚ) (h : (round s q).toRat? = some r) :
    r = signedRound q ∧ |signedRound q| ≤ maxFinite := by
  unfold round at h
  split_ifs at h with h1 h2 h3
  · simp only [toRat?, Option.some.injEq] at h
    exact ⟨by rw [h2.1]; exact h.symm, h1.2⟩
  · simp only [toRat?, Option.some.injEq] at h
    exact ⟨h.symm, h1.2⟩
  · simp [toRat?] at h
  · simp [toRat?] at h

theorem neg_toRat (a : Float32) (x : ℚ) (h : a.toRat? = some x) :
    (neg a).toRat? = some (-x) := by
  cases a with
  | finite q hq =>
    simp only [toRat?, Option.some.injEq] at h
    subst h
    by_cases h0 : q = 0
    · simp [neg, h0, toRat?]
    · simp [neg, h0, toRat?]
  | negZero =>
    simp only [toRat?, Option.some.injEq] at h
    subst h
    simp [neg, zero, toRat?]
  | inf s => simp [toRat?] at h
  | nan => simp [toRat?] at h

theorem add_toRat (a b : Float32) (x y : ℚ) (ha : a.toRat? = some x) (hb : b.toRat? = some y)
    (h : |signedRound (x + y)| ≤ maxFinite) :
    (add a b).toRat? = some (signedRound (x + y)) := by
  simp only [add, ha, hb]
  exact round_toRat _ _ h

theorem sub_toRat (a b : Float32) (x y : ℚ) (ha : a.toRat? = some x) (hb : b.toRat? = some y)
    (h : |signedRound (x - y)| ≤ maxFinite) :
    (sub a b).toRat? = some (signedRound (x - y)) := by
  simp only [sub, ha, hb]
  exact round_toRat _ _ h

theorem lt_toRat (a b : Float32) (x y : ℚ) (ha : a.toRat? = some x) (hb : b.toRat? = some y) :
    lt a b = decide (x < y) := by
  simp only [lt, ha, hb]

/-! ### The constants of the draw cycle -/

theorem toRat_threshold : (ofDecimal (8 / 10)).toRat? = some threshold := by decide!

theorem toRat_stepBound : (ofDecimal (16 / 10)).toRat? = some stepBound := by decide!

theorem negOne_eq : neg (ofDecimal 1) = finite (-1) (by decide!) := by decide!

theorem threshold_eq : ofDecimal (8 / 10) = finite threshold (by decide!) := by decide!

theorem negThreshold_eq : neg (ofDecimal (8 / 10)) = finite (-threshold) (by decide!) := by
  decide!

theorem signedRound_threshold : signedRound threshold = threshold := by decide!

theorem signedRound_positionBound : signedRound positionBound = positionBound := by decide!

theorem signedRound_reach :
    signedRound (positionBound + stepBound) = positionBound + stepBound := by
  decide!

theorem reach_le_maxFinite : positionBound + stepBound ≤ maxFinite := by decide!

/-- Rounding keeps a value between two binary32 bounds. -/
theorem signedRound_between (lo hi q : ℚ) (hlo : signedRound lo = lo) (hhi : signedRound hi = hi)
    (h1 : lo ≤ q) (h2 : q ≤ hi) : lo ≤ signedRound q ∧ signedRound q ≤ hi := by
  constructor
  · rw [← hlo]; exact signedRound_mono _ _ h1
  · rw [← hhi]; exact signedRound_mono _ _ h2

/-- One animation update keeps the position within `positionBound` when the step
`velocity * dt` is within `stepBound`. -/
theorem step_in_range (x s : Float32) (hx : absLe x positionBound) (hs : absLe s stepBound) :
    (lt (ofDecimal (8 / 10)) (add x s) = true →
      absLe (sub (ofDecimal (16 / 10)) (add x s)) positionBound) ∧
    (lt (add x s) (neg (ofDecimal (8 / 10))) = true →
      absLe (sub (neg (ofDecimal (16 / 10))) (add x s)) positionBound) ∧
    (lt (ofDecimal (8 / 10)) (add x s) = false →
      lt (add x s) (neg (ofDecimal (8 / 10))) = false → absLe (add x s) positionBound) := by
  obtain ⟨qx, hqx, bx⟩ := hx
  obtain ⟨qs, hqs, bs⟩ := hs
  rw [abs_le] at bx bs
  have hR := signedRound_reach
  have hRn : signedRound (-(positionBound + stepBound)) = -(positionBound + stepBound) := by
    rw [signedRound_neg, hR]
  have hB := signedRound_positionBound
  have hBn : signedRound (-positionBound) = -positionBound := by rw [signedRound_neg, hB]
  have hT := signedRound_threshold
  have hTn : signedRound (-threshold) = -threshold := by rw [signedRound_neg, hT]
  have hmax := reach_le_maxFinite
  have cB : positionBound = 13421774 / 16777216 := rfl
  have cS : stepBound = 13421773 / 8388608 := rfl
  have cT : threshold = 13421773 / 16777216 := rfl
  obtain ⟨p1, p2⟩ := signedRound_between _ _ (qx + qs) hRn hR (by linarith) (by linarith)
  have hp : (add x s).toRat? = some (signedRound (qx + qs)) :=
    add_toRat x s qx qs hqx hqs (by rw [abs_le]; constructor <;> linarith)
  have hnT : (neg (ofDecimal (8 / 10))).toRat? = some (-threshold) :=
    neg_toRat _ _ toRat_threshold
  have hnS : (neg (ofDecimal (16 / 10))).toRat? = some (-stepBound) :=
    neg_toRat _ _ toRat_stepBound
  refine ⟨?_, ?_, ?_⟩
  · intro h
    rw [lt_toRat _ _ _ _ toRat_threshold hp, decide_eq_true_eq] at h
    obtain ⟨r1, r2⟩ := signedRound_between (-positionBound) threshold
      (stepBound - signedRound (qx + qs)) hBn hT (by linarith) (by linarith)
    refine ⟨_, sub_toRat _ _ _ _ toRat_stepBound hp ?_, ?_⟩
    · rw [abs_le]; constructor <;> linarith
    · rw [abs_le]; constructor <;> linarith
  · intro h
    rw [lt_toRat _ _ _ _ hp hnT, decide_eq_true_eq] at h
    obtain ⟨r1, r2⟩ := signedRound_between (-threshold) positionBound
      (-stepBound - signedRound (qx + qs)) hTn hB (by linarith) (by linarith)
    refine ⟨_, sub_toRat _ _ _ _ hnS hp ?_, ?_⟩
    · rw [abs_le]; constructor <;> linarith
    · rw [abs_le]; constructor <;> linarith
  · intro h h'
    rw [lt_toRat _ _ _ _ toRat_threshold hp, decide_eq_false_iff_not] at h
    rw [lt_toRat _ _ _ _ hp hnT, decide_eq_false_iff_not] at h'
    refine ⟨_, hp, ?_⟩
    rw [abs_le]; constructor <;> linarith

/-! ### Negation -/

theorem abs_flip (a : Float32) : abs (neg a) = abs a := by
  cases a with
  | finite q hq =>
    by_cases h0 : q = 0
    · subst h0
      simp only [neg, if_true, abs, zero]
      exact finite_congr _ _ _ _ (by simp)
    · simp only [neg, if_neg h0, abs]
      exact finite_congr _ _ _ _ (by simp)
  | negZero => simp only [neg, abs, zero]; exact finite_congr _ _ _ _ (by simp)
  | inf s => rfl
  | nan => rfl

theorem mul_negOne (a : Float32) : mul a (neg (ofDecimal 1)) = neg a := by
  rw [negOne_eq]
  cases a with
  | finite q hq =>
    have hs : signedRound (q * -1) = -q := by
      rw [mul_neg_one, signedRound_neg, signedRound_of_isBinary32 q hq]
    have hb : IsBinary32 (signedRound (q * -1)) := by
      rw [hs]; simpa [IsBinary32] using hq
    simp only [mul, toRat?, sign, round, dif_pos hb]
    by_cases h0 : q = 0
    · subst h0
      simp [neg, signedRound_zero]
    · have : ¬ (signedRound (q * -1) = 0 ∧
          (xor (decide (q < 0)) (decide ((-1 : ℚ) < 0))) = true) := by
        rw [hs]
        intro h
        exact h0 (neg_eq_zero.mp h.1)
      rw [if_neg this]
      simp only [neg, if_neg h0]
      exact finite_congr _ _ _ _ hs
  | negZero =>
    have hb : IsBinary32 (signedRound (0 * -1)) := by decide!
    simp only [mul, toRat?, sign, round, dif_pos hb, neg, zero]
    have : ¬ (signedRound (0 * -1) = 0 ∧ (xor true (decide ((-1 : ℚ) < 0))) = true) := by
      intro h
      have := h.2
      simp at this
    rw [if_neg this]
    exact finite_congr _ _ _ _ (by decide!)
  | inf s => cases s <;> simp [mul, toRat?, isZero, sign, neg]
  | nan => simp [mul, toRat?, neg]

theorem toRat_mul (a b : Float32) (r : ℚ) (h : (mul a b).toRat? = some r) :
    ∃ x y : ℚ, a.toRat? = some x ∧ b.toRat? = some y ∧ r = signedRound (x * y) ∧
      |signedRound (x * y)| ≤ maxFinite := by
  cases ha : a.toRat? with
  | some x =>
    cases hb : b.toRat? with
    | some y =>
      simp only [mul, ha, hb] at h
      obtain ⟨h1, h2⟩ := toRat_round _ _ _ h
      exact ⟨x, y, rfl, rfl, h1, h2⟩
    | none =>
      exfalso
      cases a <;> cases b <;> simp [mul, toRat?] at ha hb h
      all_goals (split_ifs at h)
  | none =>
    exfalso
    cases a <;> cases b <;> simp [mul, toRat?] at ha h
    all_goals (split_ifs at h)

theorem absLe_mul_neg (a b : Float32) (c : ℚ) (h : absLe (mul a b) c) :
    absLe (mul (neg a) b) c := by
  obtain ⟨r, hr, hc⟩ := h
  obtain ⟨x, y, hx, hy, e, hmax⟩ := toRat_mul a b r hr
  have hn := neg_toRat a x hx
  have hs : signedRound (-x * y) = -signedRound (x * y) := by
    rw [neg_mul, signedRound_neg]
  refine ⟨signedRound (-x * y), ?_, ?_⟩
  · simp only [mul, hn, hy]
    apply round_toRat
    rw [hs, abs_neg]
    exact hmax
  · rw [hs, abs_neg, ← e]
    exact hc

end Float32

/-- The last branch of `round` is never taken. -/
theorem Float32.round_ne_nan (s : Bool) (q : ℚ) : Float32.round s q ≠ Float32.nan := by
  unfold Float32.round
  split_ifs with h1 h2 h3
  · exact fun h => Float32.noConfusion h
  · exact fun h => Float32.noConfusion h
  · exact fun h => Float32.noConfusion h
  · exact absurd (isBinary32_signedRound q (not_lt.mp h3)) h1

/-! ## Facts about the draw cycle -/

theorem toInt64_of_fits (n : Int) (h1 : -2 ^ 63 ≤ n) (h2 : n < 2 ^ 63) : toInt64 n = n := by
  unfold toInt64
  rw [Int.emod_eq_of_lt (by omega) (by omega)]
  omega

theorem draw_ts_of_bound (w : World) (hs : w.ts.surface ≠ EGL_NO_SURFACE) :
    (draw w).ts = animate (deltaSeconds w.ts) w.ts := by
  simp [draw, hs, run, requestDraw, emit]

/-- The three branches of the animation update. -/
theorem animate_cases (dt : Float32) (ts : ThreadState) :
    (Float32.lt (Float32.ofDecimal (8 / 10)) (Float32.add ts.x (Float32.mul ts.velocity dt))
        = true →
      (animate dt ts).x
          = Float32.sub (Float32.ofDecimal (16 / 10))
              (Float32.add ts.x (Float32.mul ts.velocity dt)) ∧
        (animate dt ts).velocity = Float32.neg ts.velocity) ∧
    (Float32.lt (Float32.ofDecimal (8 / 10)) (Float32.add ts.x (Float32.mul ts.velocity dt))
        = false →
      Float32.lt (Float32.add ts.x (Float32.mul ts.velocity dt))
          (Float32.neg (Float32.ofDecimal (8 / 10))) = true →
      (animate dt ts).x
          = Float32.sub (Float32.neg (Float32.ofDecimal (16 / 10)))
              (Float32.add ts.x (Float32.mul ts.velocity dt)) ∧
        (animate dt ts).velocity = Float32.neg ts.velocity) ∧
    (Float32.lt (Float32.ofDecimal (8 / 10)) (Float32.add ts.x (Float32.mul ts.velocity dt))
        = false →
      Float32.lt (Float32.add ts.x (Float32.mul ts.velocity dt))
          (Float32.neg (Float32.ofDecimal (8 / 10))) = false →
      (animate dt ts).x = Float32.add ts.x (Float32.mul ts.velocity dt) ∧
        (animate dt ts).velocity = ts.velocity) := by
  refine ⟨?_, ?_, ?_⟩
  · intro h
    unfold animate
    dsimp only
    rw [if_pos h]
    exact ⟨rfl, Float32.mul_negOne _⟩
  · intro h h'
    unfold animate
    dsimp only
    rw [if_neg (by rw [h]; decide), if_pos h']
    exact ⟨rfl, Float32.mul_negOne _⟩
  · intro h h'
    unfold animate
    dsimp only
    rw [if_neg (by rw [h]; decide), if_neg (by rw [h']; decide)]
    exact ⟨rfl, rfl⟩

theorem animate_velocity (dt : Float32) (ts : ThreadState) :
    (animate dt ts).velocity = ts.velocity ∨
      (animate dt ts).velocity = Float32.neg ts.velocity := by
  obtain ⟨c1, c2, c3⟩ := animate_cases dt ts
  cases h1 : Float32.lt (Float32.ofDecimal (8 / 10))
      (Float32.add ts.x (Float32.mul ts.velocity dt)) with
  | true => exact Or.inr (c1 h1).2
  | false =>
    cases h2 : Float32.lt (Float32.add ts.x (Float32.mul ts.velocity dt))
        (Float32.neg (Float32.ofDecimal (8 / 10))) with
    | true => exact Or.inr (c2 h1 h2).2
    | false => exact Or.inl (c3 h1 h2).2

theorem animate_abs_velocity (dt : Float32) (ts : ThreadState) :
    Float32.abs (animate dt ts).velocity = Float32.abs ts.velocity := by
  rcases animate_velocity dt ts with h | h <;> rw [h]
  exact Float32.abs_flip _

theorem animate_frame (dt : Float32) (ts : ThreadState) :
    (animate dt ts).surface = ts.surface ∧ (animate dt ts).isStarted = ts.isStarted ∧
    (animate dt ts).refreshPeriod = ts.refreshPeriod ∧
    (animate dt ts).swapInterval = ts.swapInterval ∧
    (animate dt ts).width = ts.width ∧ (animate dt ts).height = ts.height := by
  unfold animate
  dsimp only
  split_ifs <;> simp

theorem deltaSeconds_animate (dt : Float32) (ts : ThreadState) :
    deltaSeconds (animate dt ts) = deltaSeconds ts := by
  obtain ⟨-, -, f3, f4, -, -⟩ := animate_frame dt ts
  unfold deltaSeconds
  rw [f3, f4]

/-- The two comparisons of the animation update exclude each other. -/
theorem lt_threshold_exclusive (p : Float32)
    (h : Float32.lt p (Float32.neg (Float32.ofDecimal (8 / 10))) = true) :
    Float32.lt (Float32.ofDecimal (8 / 10)) p = false := by
  have hT := Float32.toRat_threshold
  have hnT := Float32.neg_toRat _ _ hT
  cases hp : p.toRat? with
  | some q =>
    rw [Float32.lt_toRat _ _ _ _ hp hnT, decide_eq_true_eq] at h
    rw [Float32.lt_toRat _ _ _ _ hT hp, decide_eq_false_iff_not]
    have : (0 : ℚ) < threshold := by unfold threshold; norm_num
    linarith
  | none =>
    cases p with
    | finite q hq => simp [Float32.toRat?] at hp
    | negZero => simp [Float32.toRat?] at hp
    | inf s =>
      rw [Float32.negThreshold_eq] at h
      rw [Float32.threshold_eq]
      simp only [Float32.lt, Float32.toRat?] at h ⊢
      simp [h]
    | nan => simp [Float32.lt, Float32.toRat?] at h

theorem animate_in_range (dt : Float32) (ts : ThreadState)
    (hx : Float32.absLe ts.x positionBound)
    (hv : Float32.absLe (Float32.mul ts.velocity dt) stepBound) :
    Float32.absLe (animate dt ts).x positionBound ∧
      Float32.absLe (Float32.mul (animate dt ts).velocity dt) stepBound := by
  obtain ⟨s1, s2, s3⟩ := Float32.step_in_range ts.x (Float32.mul ts.velocity dt) hx hv
  obtain ⟨c1, c2, c3⟩ := animate_cases dt ts
  cases h1 : Float32.lt (Float32.ofDecimal (8 / 10))
      (Float32.add ts.x (Float32.mul ts.velocity dt)) with
  | true =>
    obtain ⟨e1, e2⟩ := c1 h1
    rw [e1, e2]
    exact ⟨s1 h1, Float32.absLe_mul_neg _ _ _ hv⟩
  | false =>
    cases h2 : Float32.lt (Float32.add ts.x (Float32.mul ts.velocity dt))
        (Float32.neg (Float32.ofDecimal (8 / 10))) with
    | true =>
      obtain ⟨e1, e2⟩ := c2 h1 h2
      rw [e1, e2]
      exact ⟨s2 h2, Float32.absLe_mul_neg _ _ _ hv⟩
    | false =>
      obtain ⟨e1, e2⟩ := c3 h1 h2
      rw [e1, e2]
      exact ⟨s3 h1 h2, hv⟩

/-! ## The bounce law (C1, C10) -/

/-- The count is rounded when it is converted to `float`: 300 000 001 ns becomes the float
300 000 000, and the elapsed time is the float `0.3f`. -/
theorem deltaSeconds_rounds_the_count :
    Float32.ofInt 300000001 = Float32.ofInt 300000000 ∧
    Float32.div (Float32.ofInt 300000001) (Float32.ofDecimal 1000000000)
      = Float32.ofDecimal (3 / 10) := by
  refine ⟨by decide!, by decide!⟩

/-- Beyond the 64-bit range the count wraps: 2^62 ns times 2 is counted as -2^63 ns, and the
elapsed time comes out negative. -/
theorem deltaSeconds_wraps :
    overflowWorld.ts.refreshPeriod * overflowWorld.ts.swapInterval = 2 ^ 63 ∧
    toInt64 (overflowWorld.ts.refreshPeriod * overflowWorld.ts.swapInterval) = -2 ^ 63 ∧
    (deltaSeconds overflowWorld.ts).toRat? = some (-9223371776) := by
  refine ⟨by decide, by decide, by decide!⟩

/-- C1, as the code has it. In binary32 arithmetic, a draw cycle on a bound surface (the
product `refreshPeriod * swapInterval` fitting the signed 64-bit nanosecond count) computes
`dt = float(refreshPeriod * swapInterval) / 1e9f` and `p = x + velocity * dt`, each operation
rounded to the nearest float. When `p > 0.8f` the position becomes `1.6f - p` and the
velocity is negated; when `p < -0.8f` the position becomes `-1.6f - p` and the velocity is
negated; otherwise (also when `p` is NaN) the position is `p` and the velocity is kept. The
thresholds are the floats `0.8f` and `1.6f`, not the decimals. The speed `|velocity|` is
preserved and the sign flips at most once. -/
theorem draw_bounce_law (w : World) (hs : w.ts.surface ≠ EGL_NO_SURFACE)
    (hlo : -2 ^ 63 ≤ w.ts.refreshPeriod * w.ts.swapInterval)
    (hhi : w.ts.refreshPeriod * w.ts.swapInterval < 2 ^ 63)
    (dt p : Float32)
    (hdt : dt = Float32.div (Float32.ofInt (w.ts.refreshPeriod * w.ts.swapInterval))
      (Float32.ofDecimal 1000000000))
    (hp : p = Float32.add w.ts.x (Float32.mul w.ts.velocity dt)) :
    (Float32.lt (Float32.ofDecimal (8 / 10)) p = true →
      (draw w).ts.x = Float32.sub (Float32.ofDecimal (16 / 10)) p ∧
        (draw w).ts.velocity = Float32.neg w.ts.velocity) ∧
    (Float32.lt p (Float32.neg (Float32.ofDecimal (8 / 10))) = true →
      (draw w).ts.x = Float32.sub (Float32.neg (Float32.ofDecimal (16 / 10))) p ∧
        (draw w).ts.velocity = Float32.neg w.ts.velocity) ∧
    (Float32.lt (Float32.ofDecimal (8 / 10)) p = false →
      Float32.lt p (Float32.neg (Float32.ofDecimal (8 / 10))) = false →
      (draw w).ts.x = p ∧ (draw w).ts.velocity = w.ts.velocity) ∧
    Float32.abs (draw w).ts.velocity = Float32.abs w.ts.velocity ∧
    ((draw w).ts.velocity = w.ts.velocity ∨
      (draw w).ts.velocity = Float32.neg w.ts.velocity) := by
  have hd : deltaSeconds w.ts = dt := by
    unfold deltaSeconds
    rw [toInt64_of_fits _ hlo hhi, hdt]
  subst hp
  rw [draw_ts_of_bound w hs, hd]
  obtain ⟨c1, c2, c3⟩ := animate_cases dt w.ts
  exact ⟨c1, fun h => c2 (lt_threshold_exclusive _ h) h, c3, animate_abs_velocity _ _,
    animate_velocity _ _⟩

/-- C1, the scenario of the specification: refresh period 16 666 667 ns, swap interval 1,
position `0.79f` and velocity `1.0f`. The advanced position exceeds `0.8f`, the velocity
becomes `-1.0f` and the position becomes the float `13309925 / 2^24 = 0.79333335...`, which
is 0.793333 to six decimals. -/
theorem draw_bounce_law_witness :
    scenarioWorld.ts.surface ≠ EGL_NO_SURFACE ∧
    scenarioWorld.ts.refreshPeriod = 16666667 ∧ scenarioWorld.ts.swapInterval = 1 ∧
    scenarioWorld.ts.x = Float32.ofDecimal (79 / 100) ∧
    scenarioWorld.ts.velocity = Float32.ofDecimal 1 ∧
    (draw scenarioWorld).ts.velocity = Float32.neg (Float32.ofDecimal 1) ∧
    (draw scenarioWorld).ts.x.toRat? = some (13309925 / 16777216) ∧
    |(13309925 / 16777216 : ℚ) - 0.793333| < 0.0000005 := by
  have hs : scenarioWorld.ts.surface ≠ EGL_NO_SURFACE := by decide
  have h := (draw_bounce_law scenarioWorld hs (by decide) (by decide) _ _ rfl rfl).1
    (by decide!)
  refine ⟨hs, rfl, rfl, rfl, rfl, h.2, ?_, ?_⟩
  · rw [h.1]
    decide!
  · rw [abs_lt]
    constructor <;> norm_num

/-- C1 fails as stated. Refresh period 10^9 ns, swap interval 1, position `0.5f`, velocity
`0.3f`: `dt` is exactly 1 and `p = 0.5 + 0.3f` is exactly `13421773 / 2^24`, with no rounding
anywhere. That is more than 0.8, so the claim has the velocity negated and the position
`1.6 - p`; it is the float `0.8f` itself, so the draw cycle keeps the velocity and leaves
the position at `p`. -/
theorem bounce_threshold_is_the_float :
    edgeWorld.ts.surface ≠ EGL_NO_SURFACE ∧
    edgeWorld.ts.x.toRat? = some (1 / 2) ∧
    edgeWorld.ts.velocity.toRat? = some (5033165 / 16777216) ∧
    (deltaSeconds edgeWorld.ts).toRat? = some 1 ∧
    (1 / 2 + 5033165 / 16777216 * 1 : ℚ) = 13421773 / 16777216 ∧
    (8 / 10 : ℚ) < 13421773 / 16777216 ∧
    (draw edgeWorld).ts.velocity = edgeWorld.ts.velocity ∧
    (draw edgeWorld).ts.velocity ≠ Float32.neg edgeWorld.ts.velocity ∧
    (draw edgeWorld).ts.x.toRat? = some (13421773 / 16777216) ∧
    (13421773 / 16777216 : ℚ) ≠ 16 / 10 - 13421773 / 16777216 := by
  refine ⟨by decide, by decide!, by decide!, by decide!, by norm_num, by norm_num, by decide!,
    by decide!, by decide!, by norm_num⟩

/-- C10, as the code has it. In binary32 arithmetic: from a finite position of magnitude at
most `0.8f` plus one unit in the last place (`13421774 / 2^24`), with the step
`velocity * dt` of the draw cycle finite and of magnitude at most `1.6f`, any number of
consecutive draw cycles on a bound surface keeps the position finite and within that same
bound, and keeps the speed `|velocity|`. -/
theorem draw_keeps_position_in_range (w : World) (hs : w.ts.surface ≠ EGL_NO_SURFACE)
    (hx : Float32.absLe w.ts.x positionBound)
    (hv : Float32.absLe (Float32.mul w.ts.velocity (deltaSeconds w.ts)) stepBound) (n : Nat) :
    Float32.absLe (draw^[n] w).ts.x positionBound ∧
      Float32.abs (draw^[n] w).ts.velocity = Float32.abs w.ts.velocity := by
  have key : ∀ n : Nat, (draw^[n] w).ts.surface = w.ts.surface ∧
      deltaSeconds (draw^[n] w).ts = deltaSeconds w.ts ∧
      Float32.absLe (draw^[n] w).ts.x positionBound ∧
      Float32.absLe (Float32.mul (draw^[n] w).ts.velocity (deltaSeconds w.ts)) stepBound ∧
      Float32.abs (draw^[n] w).ts.velocity = Float32.abs w.ts.velocity := by
    intro n
    induction n with
    | zero => exact ⟨rfl, rfl, hx, hv, rfl⟩
    | succ k ih =>
      obtain ⟨i1, i2, i3, i4, i5⟩ := ih
      have hb : (draw^[k] w).ts.surface ≠ EGL_NO_SURFACE := by rw [i1]; exact hs
      rw [Function.iterate_succ_apply', draw_ts_of_bound _ hb]
      rw [i2]
      obtain ⟨f1, -, -, -, -, -⟩ := animate_frame (deltaSeconds w.ts) (draw^[k] w).ts
      obtain ⟨a1, a2⟩ := animate_in_range (deltaSeconds w.ts) (draw^[k] w).ts i3 i4
      exact ⟨by rw [f1, i1], by rw [deltaSeconds_animate, i2], a1, a2,
        by rw [animate_abs_velocity, i5]⟩
  obtain ⟨-, -, k3, -, k5⟩ := key n
  exact ⟨k3, k5⟩

/-- C10 at the scenario of the specification: ten frames from position `0.79f` end at the
float `10793345 / 2^24`. -/
theorem draw_keeps_position_in_range_witness :
    Float32.absLe (draw^[10] scenarioWorld).ts.x positionBound ∧
    Float32.abs (draw^[10] scenarioWorld).ts.velocity = Float32.abs scenarioWorld.ts.velocity :=
  draw_keeps_position_in_range scenarioWorld (by decide)
    ⟨13254001 / 16777216, by decide!, by decide!⟩
    ⟨8947849 / 536870912, by decide!, by decide!⟩ 10

/-- C10 fails as stated. On `edgeWorld` the position 0.5 is within 0.8 and the step
`0.3f * 1` is within 1.6, yet the position after the draw cycle is the float `0.8f`, which
is above 0.8. On `cornerWorld` (position `0.8f`, step `1.6f`, both on the float bounds)
the advanced position rounds up to `5033165 / 2^21`, and the reflected position is
`-(13421774 / 2^24)`: one unit in the last place beyond `-0.8f`. -/
theorem position_passes_decimal_bound :
    edgeWorld.ts.surface ≠ EGL_NO_SURFACE ∧
    edgeWorld.ts.x.toRat? = some (1 / 2) ∧ |(1 / 2 : ℚ)| ≤ 8 / 10 ∧
    (Float32.mul edgeWorld.ts.velocity (deltaSeconds edgeWorld.ts)).toRat?
      = some (5033165 / 16777216) ∧
    |(5033165 / 16777216 : ℚ)| ≤ 16 / 10 ∧
    (draw edgeWorld).ts.x.toRat? = some (13421773 / 16777216) ∧
    ¬ |(13421773 / 16777216 : ℚ)| ≤ 8 / 10 ∧
    cornerWorld.ts.x.toRat? = some threshold ∧
    (Float32.mul cornerWorld.ts.velocity (deltaSeconds cornerWorld.ts)).toRat?
      = some stepBound ∧
    (draw cornerWorld).ts.x.toRat? = some (-positionBound) ∧
    ¬ |(-positionBound : ℚ)| ≤ threshold := by
  refine ⟨by decide, by decide!, by decide!, by decide!, by decide!, by decide!, by decide!,
    by decide!, by decide!, by decide!, by decide!⟩

/-! ## Binding and unbinding a window (C5, C6, C7) -/

theorem clearSurface_of_unbound (ok : Bool) (w : World) (h : w.ts.surface = EGL_NO_SURFACE) :
    clearSurface ok w = w := by
  simp [clearSurface, h]

theorem clearSurface_surface (ok : Bool) (w : World) :
    (clearSurface ok w).ts.surface = EGL_NO_SURFACE := by
  unfold clearSurface
  split_ifs with h
  · exact h
  · rfl

theorem clearSurface_frame (ok : Bool) (w : World) :
    (clearSurface ok w).ts.isStarted = w.ts.isStarted ∧ (clearSurface ok w).ts.x = w.ts.x ∧
    (clearSurface ok w).ts.velocity = w.ts.velocity ∧
    (clearSurface ok w).ts.refreshPeriod = w.ts.refreshPeriod ∧
    (clearSurface ok w).ts.swapInterval = w.ts.swapInterval ∧
    (clearSurface ok w).ts.width = w.ts.width ∧ (clearSurface ok w).ts.height = w.ts.height ∧
    (clearSurface ok w).queue = w.queue ∧ (clearSurface ok w).created = w.created := by
  unfold clearSurface
  split_ifs with h
  · simp
  · simp [makeCurrent, eglDestroySurface, emit]

theorem setWindowTask_sizes (w : World) (win : Window) (width height : Int) (r : EglReply) :
    (r.bindOk = false →
      (setWindowTask (some win) width height r w).ts.surface = EGL_NO_SURFACE) ∧
    (r.bindOk = true →
      (setWindowTask (some win) width height r w).ts.width = width ∧
      (setWindowTask (some win) width height r w).ts.height = height) := by
  cases hb : r.bindOk <;> cases hc : r.createOk <;>
    simp [setWindowTask, eglCreateWindowSurface, makeCurrent, emit, hb, hc]

/-- C7. A setWindow task with a null window leaves the surface unbound; on a state that is
already unbound it changes nothing at all (no EGL call, no field, no surface destroyed);
and any further setWindow(null) tasks after the first change nothing more. -/
theorem setWindow_null_idempotent (w : World) (width height : Int) (r : EglReply)
    (more : List (Int × Int × EglReply)) :
    (runTask (.setWindow none width height) r w).ts.surface = EGL_NO_SURFACE ∧
    (w.ts.surface = EGL_NO_SURFACE → runTask (.setWindow none width height) r w = w) ∧
    more.foldl (fun v p => runTask (.setWindow none p.1 p.2.1) p.2.2 v)
        (runTask (.setWindow none width height) r w)
      = runTask (.setWindow none width height) r w := by
  have h1 : ∀ (v : World) (a b : Int) (q : EglReply),
      runTask (.setWindow none a b) q v = clearSurface q.unbindOk v := fun _ _ _ _ => rfl
  refine ⟨?_, ?_, ?_⟩
  · rw [h1]; exact clearSurface_surface _ _
  · intro h; rw [h1]; exact clearSurface_of_unbound _ _ h
  · have h2 : ∀ (l : List (Int × Int × EglReply)) (v : World),
        v.ts.surface = EGL_NO_SURFACE →
        l.foldl (fun v p => runTask (.setWindow none p.1 p.2.1) p.2.2 v) v = v := by
      intro l
      induction l with
      | nil => intro v _; rfl
      | cons p l ih =>
        intro v hv
        rw [List.foldl_cons, h1, clearSurface_of_unbound _ _ hv]
        exact ih v hv
    apply h2
    rw [h1]; exact clearSurface_surface _ _

/-- As long as `eglMakeCurrent` accepts every surface that `eglCreateWindowSurface` creates,
a setWindow task keeps the live surfaces equal to the bound one. -/
theorem setWindow_keeps_tracking (w : World) (window : Option Window) (width height : Int)
    (r : EglReply) (hr : r.createOk = true → r.bindOk = true) (hw : SurfaceTracked w) :
    SurfaceTracked (runTask (.setWindow window width height) r w) := by
  obtain ⟨hl, hc⟩ := hw
  have hclear : SurfaceTracked (clearSurface r.unbindOk w) ∧
      (clearSurface r.unbindOk w).live = [] ∧
      (clearSurface r.unbindOk w).created = w.created := by
    by_cases h : w.ts.surface = EGL_NO_SURFACE
    · rw [clearSurface_of_unbound _ _ h]
      simp only [h, if_true] at hl
      exact ⟨⟨by simp [h, hl], by rw [h]; exact Nat.zero_le _⟩, hl, rfl⟩
    · simp only [h, if_false] at hl
      have h0 : ¬ w.ts.surface = 0 := h
      simp [clearSurface, SurfaceTracked, h0, makeCurrent, eglDestroySurface, emit, hl,
        EGL_NO_SURFACE]
  obtain ⟨hc1, hc2, hc3⟩ := hclear
  cases window with
  | none => exact hc1
  | some win =>
    cases hcr : r.createOk with
    | true =>
      have hb := hr hcr
      simp [runTask, setWindowTask, eglCreateWindowSurface, makeCurrent, emit, hcr, hb,
        SurfaceTracked, hc2, hc3, EGL_NO_SURFACE]
    | false =>
      cases hb : r.bindOk <;>
        simp [runTask, setWindowTask, eglCreateWindowSurface, makeCurrent, emit, hcr, hb,
          SurfaceTracked, hc2, EGL_NO_SURFACE]

/-- A setWindow task that binds a new window over a bound surface issues, in this order:
unbind, destroy the old surface, create the new one, release the window, make the new
surface current. -/
theorem setWindow_destroys_before_creating (w : World) (win : Window) (width height : Int)
    (r : EglReply) (hs : w.ts.surface ≠ EGL_NO_SURFACE) (hc : r.createOk = true)
    (hb : r.bindOk = true) :
    (runTask (.setWindow (some win) width height) r w).trace
      = w.trace ++ [Event.eglMakeCurrent EGL_NO_SURFACE r.unbindOk,
          Event.eglDestroySurface w.ts.surface,
          Event.eglCreateWindowSurface win (w.created + 1),
          Event.windowRelease win,
          Event.eglMakeCurrent (w.created + 1) true] := by
  simp [runTask, setWindowTask, clearSurface, eglCreateWindowSurface, eglDestroySurface,
    makeCurrent, emit, hs, hc, hb]

/-- C5, evaluated where it fails. A first setWindow task creates surface 1 and cannot make it
current: the handle is dropped without `eglDestroySurface`, so surface 1 stays live while
`surface` is `EGL_NO_SURFACE`. A second, successful setWindow task creates surface 2: two
surfaces are live, and no `eglDestroySurface` call was ever made. -/
theorem setWindow_bind_failure_leaks_surface :
    SurfaceTracked idleWorld ∧
    (runTask (.setWindow (some 7) 1080 1920) bindFails idleWorld).ts.surface = EGL_NO_SURFACE ∧
    (runTask (.setWindow (some 7) 1080 1920) bindFails idleWorld).live = [1] ∧
    (runTask (.setWindow (some 8) 1080 1920) allOk
      (runTask (.setWindow (some 7) 1080 1920) bindFails idleWorld)).ts.surface = 2 ∧
    (runTask (.setWindow (some 8) 1080 1920) allOk
      (runTask (.setWindow (some 7) 1080 1920) bindFails idleWorld)).live = [1, 2] ∧
    (runTask (.setWindow (some 8) 1080 1920) allOk
      (runTask (.setWindow (some 7) 1080 1920) bindFails idleWorld)).trace
      = [Event.eglCreateWindowSurface 7 1, Event.windowRelease 7, Event.eglMakeCurrent 1 false,
          Event.logError, Event.eglCreateWindowSurface 8 2, Event.windowRelease 8,
          Event.eglMakeCurrent 2 true] := by
  refine ⟨⟨rfl, ?_⟩, rfl, rfl, rfl, rfl, rfl⟩
  decide

/-! ## Configuration choice (C9) -/

/-- The predicate handed to `std::find_if` does not depend on the candidate. -/
theorem configMatches_ignores_candidate (egl : ConfigTable) (thisConfig a b : EGLConfig) :
    configMatches egl thisConfig a = configMatches egl thisConfig b := rfl

/-- Whatever the configurations are, the constructor ends up with the first enumerated one. -/
theorem chooseConfig_eq_head (egl : ConfigTable) (thisConfig : EGLConfig)
    (supportedConfigs : List EGLConfig) :
    chooseConfig egl thisConfig supportedConfigs = supportedConfigs.head? := by
  unfold chooseConfig
  cases supportedConfigs with
  | nil => rfl
  | cons c cs =>
    cases h : configMatches egl thisConfig c with
    | true => simp [List.find?, h]
    | false =>
      have hall : cs.find? (configMatches egl thisConfig) = none := by
        rw [List.find?_eq_none]
        intro x _
        rw [configMatches_ignores_candidate egl thisConfig x c, h]
        simp
      simp [List.find?, h, hall]

/-- C9, evaluated where it fails. EGL enumerates configuration 1 (red, green, blue 10 bits,
depth 0) and then configuration 2 (red, green, blue 8 bits, depth 0); both meet the request
of at least 8 bits per channel. The specification selects configuration 2; the constructor
selects configuration 1, whatever the member `config` held before. -/
theorem chooseConfig_misses_later_match :
    meetsRequest twoConfigs 1 = true ∧ meetsRequest twoConfigs 2 = true ∧
    specMatches twoConfigs 1 = false ∧ specMatches twoConfigs 2 = true ∧
    specChooseConfig twoConfigs [1, 2] = some 2 ∧
    ∀ thisConfig : EGLConfig, chooseConfig twoConfigs thisConfig [1, 2] = some 1 := by
  refine ⟨by decide, by decide, by decide, by decide, by decide, ?_⟩
  intro thisConfig
  rw [chooseConfig_eq_head]
  rfl

/-! ## The executor: what each task does to the queue and to the flags -/

theorem draw_frame (w : World) :
    (draw w).ts.surface = w.ts.surface ∧ (draw w).ts.isStarted = w.ts.isStarted ∧
    (draw w).ts.width = w.ts.width ∧ (draw w).ts.height = w.ts.height ∧
    (draw w).queue = w.queue ++ [Task.requestDraw] ∧ (draw w).live = w.live ∧
    (draw w).created = w.created := by
  obtain ⟨f1, f2, -, -, f5, f6⟩ := animate_frame (deltaSeconds w.ts) w.ts
  unfold draw
  split_ifs with h
  · simp [run, requestDraw, emit]
  · simp [run, requestDraw, emit, f1, f2, f5, f6]

theorem draw_drawCycles (w : World) : drawCycles (draw w) = drawCycles w + 1 := by
  unfold draw
  split_ifs with h <;>
    simp [drawCycles, run, requestDraw, emit, List.countP_append, List.countP_cons]

theorem draw_framesPresented_of_bound (w : World) (hs : w.ts.surface ≠ EGL_NO_SURFACE) :
    framesPresented (draw w) = framesPresented w + 1 := by
  simp [draw, hs, framesPresented, run, requestDraw, emit, List.countP_append, List.countP_cons]

theorem draw_framesPresented_of_unbound (w : World) (hs : w.ts.surface = EGL_NO_SURFACE) :
    framesPresented (draw w) = framesPresented w ∧ (draw w).ts = w.ts := by
  simp [draw, hs, framesPresented, run, requestDraw, emit, List.countP_append, List.countP_cons]

theorem setWindowTask_frame (window : Option Window) (width height : Int) (r : EglReply)
    (w : World) :
    (setWindowTask window width height r w).queue = w.queue ∧
    (setWindowTask window width height r w).ts.isStarted = w.ts.isStarted ∧
    (setWindowTask window width height r w).ts.x = w.ts.x ∧
    (setWindowTask window width height r w).ts.velocity = w.ts.velocity ∧
    drawCycles (setWindowTask window width height r w) = drawCycles w ∧
    framesPresented (setWindowTask window width height r w) = framesPresented w := by
  have hclear : drawCycles (clearSurface r.unbindOk w) = drawCycles w ∧
      framesPresented (clearSurface r.unbindOk w) = framesPresented w := by
    unfold clearSurface
    split_ifs with h
    · exact ⟨rfl, rfl⟩
    · simp [drawCycles, framesPresented, makeCurrent, eglDestroySurface, emit,
        List.countP_append, List.countP_cons]
  obtain ⟨c1, c2, c3, -, -, -, -, c8, -⟩ := clearSurface_frame r.unbindOk w
  obtain ⟨d1, d2⟩ := hclear
  cases window with
  | none => exact ⟨c8, c1, c2, c3, d1, d2⟩
  | some win =>
    unfold drawCycles framesPresented at *
    cases hb : r.bindOk <;> cases hc : r.createOk <;>
      simp [setWindowTask, eglCreateWindowSurface, makeCurrent, emit, hb, hc,
        c1, c2, c3, c8, d1, d2, List.countP_append, List.countP_cons]

/-- A task that is not a start task, executed while stopped, keeps the renderer stopped,
draws nothing, keeps position and velocity, and enqueues nothing. -/
theorem runTask_while_stopped (t : Task) (r : EglReply) (w : World)
    (hstop : w.ts.isStarted = false) (ht : t ≠ Task.start) :
    (runTask t r w).ts.isStarted = false ∧ (runTask t r w).queue = w.queue ∧
    drawCycles (runTask t r w) = drawCycles w ∧
    framesPresented (runTask t r w) = framesPresented w ∧
    (runTask t r w).ts.x = w.ts.x ∧ (runTask t r w).ts.velocity = w.ts.velocity := by
  cases t with
  | setWindow window width height =>
    obtain ⟨s1, s2, s3, s4, s5, s6⟩ := setWindowTask_frame window width height r w
    exact ⟨by show (setWindowTask window width height r w).ts.isStarted = false
              rw [s2, hstop], s1, s5, s6, s3, s4⟩
  | start => exact absurd rfl ht
  | stop => exact ⟨rfl, rfl, rfl, rfl, rfl, rfl⟩
  | requestDraw =>
    have : runTask Task.requestDraw r w = w := by simp [runTask, requestDrawTask, hstop]
    rw [this]
    exact ⟨hstop, rfl, rfl, rfl, rfl, rfl⟩
  | settingsChanged rp si => exact ⟨hstop, rfl, rfl, rfl, rfl, rfl⟩

theorem exec_cons (w : World) (a : Action) (as : List Action) :
    exec w (a :: as) = exec (act w a) as := rfl

theorem step_nil (r : EglReply) (w : World) (hq : w.queue = []) : step r w = w := by
  simp [step, hq]

theorem step_cons (r : EglReply) (w : World) (t : Task) (rest : List Task)
    (hq : w.queue = t :: rest) : step r w = runTask t r { w with queue := rest } := by
  simp [step, hq]

/-! ## Stopping the frame loop (C4) -/

/-- A worker step that does not execute a start task keeps a stopped renderer stopped
and draws nothing. -/
theorem step_while_stopped (r : EglReply) (w : World) (hstop : w.ts.isStarted = false)
    (hhead : (w.queue.head? == some Task.start) = false) :
    (step r w).ts.isStarted = false ∧ (step r w).queue = w.queue.tail ∧
    drawCycles (step r w) = drawCycles w ∧ framesPresented (step r w) = framesPresented w ∧
    (step r w).ts.x = w.ts.x ∧ (step r w).ts.velocity = w.ts.velocity := by
  cases hq : w.queue with
  | nil =>
    rw [step_nil r w hq]
    exact ⟨hstop, by rw [hq]; rfl, rfl, rfl, rfl, rfl⟩
  | cons t rest =>
    have ht : t ≠ Task.start := by
      intro h
      rw [hq, h] at hhead
      simp at hhead
    rw [step_cons r w t rest hq]
    exact runTask_while_stopped t r { w with queue := rest } hstop ht

theorem stays_stopped (as : List Action) :
    ∀ w : World, w.ts.isStarted = false → startRuns w as = false →
      (exec w as).ts.isStarted = false ∧ drawCycles (exec w as) = drawCycles w ∧
      framesPresented (exec w as) = framesPresented w ∧
      (exec w as).ts.x = w.ts.x ∧ (exec w as).ts.velocity = w.ts.velocity := by
  induction as with
  | nil => intro w hstop _; exact ⟨hstop, rfl, rfl, rfl, rfl⟩
  | cons a as ih =>
    intro w hstop hno
    rw [exec_cons]
    cases a with
    | call t =>
      have h := ih (run t w) hstop hno
      exact h
    | work r =>
      simp only [startRuns, Bool.or_eq_false_iff] at hno
      obtain ⟨s1, -, s3, s4, s5, s6⟩ := step_while_stopped r w hstop hno.1
      obtain ⟨i1, i2, i3, i4, i5⟩ := ih (step r w) s1 hno.2
      exact ⟨i1, by rw [← s3]; exact i2, by rw [← s4]; exact i3, by rw [← s5]; exact i4,
        by rw [← s6]; exact i5⟩

theorem drains_while_stopped (rs : List EglReply) :
    ∀ w : World, w.ts.isStarted = false → Task.start ∉ w.queue →
      rs.length = w.queue.length →
      (exec w (rs.map Action.work)).queue = [] ∧
      drawCycles (exec w (rs.map Action.work)) = drawCycles w := by
  induction rs with
  | nil =>
    intro w _ _ hlen
    refine ⟨?_, rfl⟩
    show w.queue = []
    exact List.length_eq_zero.mp hlen.symm
  | cons r rs ih =>
    intro w hstop hno hlen
    cases hq : w.queue with
    | nil => rw [hq] at hlen; simp at hlen
    | cons t rest =>
      have hhead : (w.queue.head? == some Task.start) = false := by
        rw [hq]
        have : t ≠ Task.start := by
          intro h
          apply hno
          rw [hq, h]
          exact List.mem_cons_self _ _
        simp [this]
      obtain ⟨s1, s2, s3, -, -, -⟩ := step_while_stopped r w hstop hhead
      rw [hq, List.tail_cons] at s2
      have hno2 : Task.start ∉ (step r w).queue := by
        rw [s2]
        intro h
        apply hno
        rw [hq]
        exact List.mem_cons_of_mem _ h
      have hlen2 : rs.length = (step r w).queue.length := by
        rw [s2]
        rw [hq] at hlen
        simpa using hlen
      obtain ⟨i1, i2⟩ := ih (step r w) s1 hno2 hlen2
      rw [List.map_cons, exec_cons]
      exact ⟨i1, by rw [← s3]; exact i2⟩

/-- C4. Let a stop task execute (`w0` has it at the head of the queue), then let any schedule
run in which the worker executes no start task, reaching `w`. Then the renderer is still
stopped, no draw cycle has executed and no frame was presented since the stop, and position
and velocity are as they were; a draw-request task executed next only leaves the queue
(nothing drawn, `ThreadState` unchanged, nothing enqueued); and when no start task is
pending, as many worker steps as there are pending tasks empty the queue without a draw
cycle: the frame loop has halted. -/
theorem stop_halts_frame_loop (w0 : World) (r0 : EglReply) (rest : List Task)
    (hq : w0.queue = Task.stop :: rest) (as : List Action)
    (hno : startRuns (step r0 w0) as = false) (w : World)
    (hw : w = exec (step r0 w0) as) :
    w.ts.isStarted = false ∧
    drawCycles w = drawCycles w0 ∧ framesPresented w = framesPresented w0 ∧
    w.ts.x = w0.ts.x ∧ w.ts.velocity = w0.ts.velocity ∧
    (∀ (r : EglReply) (q : List Task), w.queue = Task.requestDraw :: q →
      step r w = { w with queue := q }) ∧
    (Task.start ∉ w.queue → ∀ rs : List EglReply, rs.length = w.queue.length →
      (exec w (rs.map Action.work)).queue = [] ∧
      drawCycles (exec w (rs.map Action.work)) = drawCycles w0) := by
  have h0 : step r0 w0 = { w0 with queue := rest, ts := { w0.ts with isStarted := false } } := by
    rw [step_cons r0 w0 _ rest hq]
    rfl
  have hstop0 : (step r0 w0).ts.isStarted = false := by rw [h0]
  obtain ⟨i1, i2, i3, i4, i5⟩ := stays_stopped as (step r0 w0) hstop0 hno
  rw [← hw] at i1 i2 i3 i4 i5
  have e2 : drawCycles (step r0 w0) = drawCycles w0 := by rw [h0]; rfl
  have e3 : framesPresented (step r0 w0) = framesPresented w0 := by rw [h0]; rfl
  have e4 : (step r0 w0).ts.x = w0.ts.x := by rw [h0]
  have e5 : (step r0 w0).ts.velocity = w0.ts.velocity := by rw [h0]
  refine ⟨i1, i2.trans e2, i3.trans e3, i4.trans e4, i5.trans e5, ?_, ?_⟩
  · intro r q hq2
    rw [step_cons r w _ q hq2]
    simp [runTask, requestDrawTask, i1]
  · intro hns rs hlen
    obtain ⟨d1, d2⟩ := drains_while_stopped rs w i1 hns hlen
    exact ⟨d1, d2.trans (i2.trans e2)⟩

/-- C4 on a running world with a stop task and a draw request pending: after the stop, the
pending draw request and a later requestDraw call draw nothing. -/
theorem stop_halts_frame_loop_witness :
    (exec (step allOk runningWorld) [Action.work allOk, Action.call Task.requestDraw]).ts.isStarted
      = false ∧
    drawCycles (exec (step allOk runningWorld) [Action.work allOk, Action.call Task.requestDraw])
      = drawCycles runningWorld ∧
    (exec (exec (step allOk runningWorld) [Action.work allOk, Action.call Task.requestDraw])
      ([allOk].map Action.work)).queue = [] :=
  have h := stop_halts_frame_loop runningWorld allOk [Task.requestDraw] rfl
    [Action.work allOk, Action.call Task.requestDraw] (by decide) _ rfl
  ⟨h.1, h.2.1, (h.2.2.2.2.2.2 (by decide) [allOk] (by decide)).1⟩

/-! ## Starting twice (C2) -/

theorem start_chains (as : List Action) :
    ∀ w : World, OnlyStartCalls as →
      (∀ t ∈ w.queue, t = Task.start ∨ t = Task.requestDraw) →
      (w.ts.isStarted = false → pendingDraws w = 0) →
      ((∀ t ∈ (exec w as).queue, t = Task.start ∨ t = Task.requestDraw) ∧
        ((exec w as).ts.isStarted = false → pendingDraws (exec w as) = 0)) ∧
      pendingStarts (exec w as) + pendingDraws (exec w as)
        = pendingStarts w + pendingDraws w + as.count (Action.call Task.start) := by
  induction as with
  | nil => intro w _ h1 h2; exact ⟨⟨h1, h2⟩, rfl⟩
  | cons a as ih =>
    intro w hall h1 h2
    have hall2 : OnlyStartCalls as := fun b hb => hall b (List.mem_cons_of_mem _ hb)
    rw [exec_cons]
    rcases hall a (List.mem_cons_self _ _) with ha | ⟨r, ha⟩
    · subst ha
      have q1 : ∀ t ∈ (act w (Action.call Task.start)).queue,
          t = Task.start ∨ t = Task.requestDraw := by
        intro t ht
        simp only [act, run, requestDraw, List.mem_append, List.mem_singleton] at ht
        rcases ht with ht | ht
        · exact h1 t ht
        · exact Or.inl ht
      have q2 : (act w (Action.call Task.start)).ts.isStarted = false →
          pendingDraws (act w (Action.call Task.start)) = 0 := by
        intro h
        have := h2 h
        simp [act, run, requestDraw, pendingDraws] at this ⊢
        exact this
      obtain ⟨i1, i2⟩ := ih _ hall2 q1 q2
      refine ⟨i1, ?_⟩
      rw [i2]
      simp [act, run, requestDraw, pendingDraws, pendingStarts, List.count_cons]
      omega
    · subst ha
      have hcount : (Action.work r :: as).count (Action.call Task.start)
          = as.count (Action.call Task.start) := by
        simp [List.count_cons]
      rw [hcount]
      cases hq : w.queue with
      | nil =>
        have : act w (Action.work r) = w := step_nil r w hq
        rw [this]
        exact ih w hall2 h1 h2
      | cons t rest =>
        have hrest : ∀ u ∈ rest, u = Task.start ∨ u = Task.requestDraw := by
          intro u hu
          apply h1
          rw [hq]
          exact List.mem_cons_of_mem _ hu
        have hstep : act w (Action.work r) = runTask t r { w with queue := rest } :=
          step_cons r w t rest hq
        rcases h1 t (by rw [hq]; exact List.mem_cons_self _ _) with ht | ht
        · subst ht
          have e : act w (Action.work r)
              = { w with queue := rest ++ [Task.requestDraw],
                         ts := { w.ts with isStarted := true } } := by
            rw [hstep]; rfl
          have q1 : ∀ u ∈ (act w (Action.work r)).queue,
              u = Task.start ∨ u = Task.requestDraw := by
            intro u hu
            rw [e] at hu
            simp only [List.mem_append, List.mem_singleton] at hu
            rcases hu with hu | hu
            · exact hrest u hu
            · exact Or.inr hu
          have q2 : (act w (Action.work r)).ts.isStarted = false →
              pendingDraws (act w (Action.work r)) = 0 := by
            intro h
            rw [e] at h
            simp at h
          obtain ⟨i1, i2⟩ := ih _ hall2 q1 q2
          refine ⟨i1, ?_⟩
          rw [i2, e]
          simp [pendingDraws, pendingStarts, hq, List.count_cons]
          omega
        · subst ht
          have hstarted : w.ts.isStarted = true := by
            cases hs : w.ts.isStarted with
            | true => rfl
            | false =>
              have := h2 hs
              simp [pendingDraws, hq, List.count_cons] at this
          obtain ⟨-, d2, -, -, d5, -, -⟩ := draw_frame { w with queue := rest }
          have e : act w (Action.work r) = draw { w with queue := rest } := by
            rw [hstep]
            simp [runTask, requestDrawTask, hstarted]
          have q1 : ∀ u ∈ (act w (Action.work r)).queue,
              u = Task.start ∨ u = Task.requestDraw := by
            intro u hu
            rw [e, d5] at hu
            simp only [List.mem_append, List.mem_singleton] at hu
            rcases hu with hu | hu
            · exact hrest u hu
            · exact Or.inr hu
          have q2 : (act w (Action.work r)).ts.isStarted = false →
              pendingDraws (act w (Action.work r)) = 0 := by
            intro h
            rw [e, d2] at h
            rw [hstarted] at h
            simp at h
          obtain ⟨i1, i2⟩ := ih _ hall2 q1 q2
          refine ⟨i1, ?_⟩
          rw [i2]
          simp only [pendingDraws, pendingStarts, e, d5, hq]
          simp [List.count_cons]

/-- C2, as the code has it. From a world with an empty queue (stopped or not), along any schedule
made of two start calls and any number of worker steps: pending start tasks and pending
draw requests together number exactly two, so at most two draw requests are pending and
exactly two once both start tasks have run; and a draw request executed next enqueues
exactly one further draw request. Each start call has its own self-requeuing chain. -/
theorem start_twice_spawns_two_chains (w : World) (hq : w.queue = []) (as : List Action)
    (hall : OnlyStartCalls as)
    (htwice : as.count (Action.call Task.start) = 2) :
    pendingStarts (exec w as) + pendingDraws (exec w as) = 2 ∧
    pendingDraws (exec w as) ≤ 2 ∧
    (pendingStarts (exec w as) = 0 → pendingDraws (exec w as) = 2) ∧
    (∀ (r : EglReply) (q : List Task), (exec w as).queue = Task.requestDraw :: q →
      (step r (exec w as)).queue = q ++ [Task.requestDraw]) := by
  have h1 : ∀ t ∈ w.queue, t = Task.start ∨ t = Task.requestDraw := by
    intro t ht; rw [hq] at ht; simp at ht
  have h2 : w.ts.isStarted = false → pendingDraws w = 0 := by
    intro _; simp [pendingDraws, hq]
  obtain ⟨⟨-, i2⟩, i3⟩ := start_chains as w hall h1 h2
  have hsum : pendingStarts (exec w as) + pendingDraws (exec w as) = 2 := by
    rw [i3, htwice]
    simp [pendingStarts, pendingDraws, hq]
  refine ⟨hsum, by omega, fun h => by omega, ?_⟩
  intro r q hq2
  have hstarted : (exec w as).ts.isStarted = true := by
    cases hs : (exec w as).ts.isStarted with
    | true => rfl
    | false =>
      have := i2 hs
      simp [pendingDraws, hq2, List.count_cons] at this
  rw [step_cons r _ _ q hq2]
  have e : runTask Task.requestDraw r { exec w as with queue := q }
      = draw { exec w as with queue := q } := by
    simp [runTask, requestDrawTask, hstarted]
  rw [e]
  exact (draw_frame _).2.2.2.2.1

/-- C2 on the idle world: call start, let it run, call start again, let two more tasks run;
two draw requests are pending. -/
theorem start_twice_spawns_two_chains_witness :
    pendingDraws (exec idleWorld [Action.call Task.start, Action.work allOk,
      Action.call Task.start, Action.work allOk, Action.work allOk]) = 2 :=
  (start_twice_spawns_two_chains idleWorld rfl _ (by simp [OnlyStartCalls])
    (by decide)).2.2.1 (by decide)

/-- C2 fails as stated. On the scenario world (stopped, nothing pending, surface bound) two
start calls followed by four worker steps leave two draw requests pending, not at most one:
the two frames presented so far were each followed by a further draw request of their own. -/
theorem start_twice_two_pending_draws :
    scenarioWorld.ts.isStarted = false ∧ scenarioWorld.queue = [] ∧
    (exec scenarioWorld [Action.call Task.start, Action.call Task.start, Action.work allOk,
      Action.work allOk, Action.work allOk, Action.work allOk]).queue
      = [Task.requestDraw, Task.requestDraw] ∧
    framesPresented (exec scenarioWorld [Action.call Task.start, Action.call Task.start,
      Action.work allOk, Action.work allOk, Action.work allOk, Action.work allOk]) = 2 ∧
    ¬ pendingDraws (exec scenarioWorld [Action.call Task.start, Action.call Task.start,
      Action.work allOk, Action.work allOk, Action.work allOk, Action.work allOk]) ≤ 1 := by
  refine ⟨rfl, rfl, ?_, ?_, ?_⟩ <;> decide!

/-! ## Starting and stopping at once (C3) -/

theorem exec_work_idle (rs : List EglReply) (w : World) (hq : w.queue = []) :
    exec w (rs.map Action.work) = w := by
  induction rs with
  | nil => rfl
  | cons r rs ih =>
    rw [List.map_cons, exec_cons]
    have : act w (Action.work r) = w := step_nil r w hq
    rw [this]
    exact ih

theorem world_restore (w : World) (hstop : w.ts.isStarted = false) (hq : w.queue = []) :
    ({ w with queue := [], ts := { w.ts with isStarted := false } } : World) = w := by
  obtain ⟨ts, queue, live, created, trace⟩ := w
  obtain ⟨d, c, s, ctx, st, rp, si, wd, ht, x, v⟩ := ts
  simp only at hstop hq
  subst hstop hq
  rfl

/-- C3, as the code has it. From a stopped world with an empty queue (surface bound or not):
when start and stop are both called before the worker runs start's task, then however many
worker steps follow, no draw cycle executes, no frame is presented, no call leaves the
renderer, position and velocity are unchanged, and from the third step on the queue is
exhausted and the world is as it was before the two calls. When the worker has run start's
task before stop is called, the pending draw request runs ahead of the stop: exactly one draw
cycle executes (one frame, if a surface is bound), and after three further steps the queue
is exhausted and the renderer is stopped. -/
theorem start_then_stop (w : World) (hstop : w.ts.isStarted = false) (hq : w.queue = [])
    (r1 : EglReply) (rs : List EglReply) :
    ((exec w (Action.call Task.start :: Action.call Task.stop :: rs.map Action.work)).trace
        = w.trace ∧
      drawCycles (exec w (Action.call Task.start :: Action.call Task.stop :: rs.map Action.work))
        = drawCycles w ∧
      framesPresented
          (exec w (Action.call Task.start :: Action.call Task.stop :: rs.map Action.work))
        = framesPresented w ∧
      (exec w (Action.call Task.start :: Action.call Task.stop :: rs.map Action.work)).ts.x
        = w.ts.x ∧
      (exec w (Action.call Task.start :: Action.call Task.stop :: rs.map Action.work)).ts.velocity
        = w.ts.velocity ∧
      (3 ≤ rs.length →
        exec w (Action.call Task.start :: Action.call Task.stop :: rs.map Action.work) = w)) ∧
    (1 ≤ rs.length →
      drawCycles (exec w (Action.call Task.start :: Action.work r1 :: Action.call Task.stop ::
          rs.map Action.work)) = drawCycles w + 1 ∧
      (w.ts.surface ≠ EGL_NO_SURFACE →
        framesPresented (exec w (Action.call Task.start :: Action.work r1 ::
          Action.call Task.stop :: rs.map Action.work)) = framesPresented w + 1) ∧
      (3 ≤ rs.length →
        (exec w (Action.call Task.start :: Action.work r1 :: Action.call Task.stop ::
          rs.map Action.work)).queue = [] ∧
        (exec w (Action.call Task.start :: Action.work r1 :: Action.call Task.stop ::
          rs.map Action.work)).ts.isStarted = false)) := by
  constructor
  · rcases rs with _ | ⟨q1, _ | ⟨q2, _ | ⟨q3, more⟩⟩⟩
    · simp [exec, act, run, requestDraw, drawCycles, framesPresented]
    · simp [exec, act, run, requestDraw, step, runTask, startTask, drawCycles, framesPresented, hq]
    · simp [exec, act, run, requestDraw, step, runTask, startTask, stopTask, drawCycles,
        framesPresented, hq]
    · have e : exec w (Action.call Task.start :: Action.call Task.stop ::
          (q1 :: q2 :: q3 :: more).map Action.work) = w := by
        simp only [List.map_cons, exec_cons]
        have e5 : act (act (act (act (act w (Action.call Task.start)) (Action.call Task.stop))
            (Action.work q1)) (Action.work q2)) (Action.work q3)
            = { w with queue := [], ts := { w.ts with isStarted := false } } := by
          simp [act, run, requestDraw, step, runTask, startTask, stopTask, requestDrawTask, hq]
        rw [e5, world_restore w hstop hq]
        exact exec_work_idle more w hq
      rw [e]
      exact ⟨rfl, rfl, rfl, rfl, rfl, fun _ => rfl⟩
  · intro hlen
    obtain ⟨d1, d2, d3, d4, d5, d6, d7⟩ :=
      draw_frame { w with queue := [Task.stop], ts := { w.ts with isStarted := true } }
    have dc :=
      draw_drawCycles { w with queue := [Task.stop], ts := { w.ts with isStarted := true } }
    have e3 : act (act (act w (Action.call Task.start)) (Action.work r1)) (Action.call Task.stop)
        = { w with queue := [Task.requestDraw, Task.stop],
                   ts := { w.ts with isStarted := true } } := by
      simp [act, run, requestDraw, step, runTask, startTask, hq]
    rcases rs with _ | ⟨q1, rs⟩
    · simp at hlen
    · have e4 : exec w (Action.call Task.start :: Action.work r1 :: Action.call Task.stop ::
          (q1 :: rs).map Action.work)
          = exec (draw { w with queue := [Task.stop], ts := { w.ts with isStarted := true } })
              (rs.map Action.work) := by
        simp only [List.map_cons, exec_cons]
        rw [e3]
        congr 1
      rw [e4]
      have hfr : w.ts.surface ≠ EGL_NO_SURFACE →
          framesPresented (draw { w with queue := [Task.stop],
                                         ts := { w.ts with isStarted := true } })
            = framesPresented w + 1 := fun hs =>
        draw_framesPresented_of_bound
          { w with queue := [Task.stop], ts := { w.ts with isStarted := true } } hs
      have dc2 : drawCycles (draw { w with queue := [Task.stop],
                                           ts := { w.ts with isStarted := true } })
          = drawCycles w + 1 := dc
      have dq : (draw { w with queue := [Task.stop],
                               ts := { w.ts with isStarted := true } }).queue
          = [Task.stop, Task.requestDraw] := d5
      generalize draw { w with queue := [Task.stop], ts := { w.ts with isStarted := true } }
        = D at hfr dc2 dq
      rcases rs with _ | ⟨q2, _ | ⟨q3, more⟩⟩
      · refine ⟨dc2, hfr, ?_⟩
        intro h; simp at h
      · refine ⟨?_, ?_, ?_⟩
        · simp [exec, act, step, dq, runTask, stopTask, drawCycles] at dc2 ⊢
          exact dc2
        · intro hs
          have := hfr hs
          simp [exec, act, step, dq, runTask, stopTask, framesPresented] at this ⊢
          exact this
        · intro h; simp at h
      · have e5 : exec D ((q2 :: q3 :: more).map Action.work)
            = { D with queue := [], ts := { D.ts with isStarted := false } } := by
          simp only [List.map_cons, exec_cons]
          have h2 : act (act D (Action.work q2)) (Action.work q3)
              = { D with queue := [], ts := { D.ts with isStarted := false } } := by
            simp [act, step, dq, runTask, stopTask, requestDrawTask]
          rw [h2]
          exact exec_work_idle more _ rfl
        rw [e5]
        exact ⟨dc2, hfr, fun _ => ⟨rfl, rfl⟩⟩

/-- C3 on the scenario world: start, stop, then three worker steps give back the world as it
was. -/
theorem start_then_stop_witness :
    exec scenarioWorld (Action.call Task.start :: Action.call Task.stop ::
      [allOk, allOk, allOk].map Action.work) = scenarioWorld :=
  (start_then_stop scenarioWorld rfl rfl allOk [allOk, allOk, allOk]).1.2.2.2.2.2 (by decide)

/-- C3 fails as stated. On the scenario world (stopped, nothing pending, surface bound) the
worker runs start's task before stop is called; no draw cycle has executed when stop is
enqueued, yet running the queue to exhaustion presents one frame and moves the ball: the
position goes from `0.79f` to the float `13309925 / 2^24 = 0.79333335...` and the velocity
from `1.0f` to `-1.0f`. -/
theorem start_run_then_stop_draws_a_frame :
    scenarioWorld.ts.isStarted = false ∧ scenarioWorld.queue = [] ∧
    drawCycles (exec scenarioWorld [Action.call Task.start, Action.work allOk]) = 0 ∧
    (exec scenarioWorld [Action.call Task.start, Action.work allOk, Action.call Task.stop,
      Action.work allOk, Action.work allOk, Action.work allOk]).queue = [] ∧
    framesPresented (exec scenarioWorld [Action.call Task.start, Action.work allOk,
      Action.call Task.stop, Action.work allOk, Action.work allOk, Action.work allOk]) = 1 ∧
    (exec scenarioWorld [Action.call Task.start, Action.work allOk, Action.call Task.stop,
      Action.work allOk, Action.work allOk, Action.work allOk]).ts.x.toRat?
      = some (13309925 / 16777216) ∧
    (exec scenarioWorld [Action.call Task.start, Action.work allOk, Action.call Task.stop,
      Action.work allOk, Action.work allOk, Action.work allOk]).ts.velocity
      = Float32.neg (Float32.ofDecimal 1) ∧
    (exec scenarioWorld [Action.call Task.start, Action.work allOk, Action.call Task.stop,
      Action.work allOk, Action.work allOk, Action.work allOk]).ts.x ≠ scenarioWorld.ts.x ∧
    (exec scenarioWorld [Action.call Task.start, Action.work allOk, Action.call Task.stop,
      Action.work allOk, Action.work allOk, Action.work allOk]).ts.velocity
      ≠ scenarioWorld.ts.velocity := by
  refine ⟨rfl, rfl, ?_, ?_, ?_, ?_, ?_, ?_, ?_⟩ <;> decide!

/-! ## Viewport size of a bound surface (C8) -/

theorem runTask_sizes (t : Task) (r : EglReply) (w : World)
    (ht : ∀ (win : Window) (a b : Int), t = Task.setWindow (some win) a b → 0 < a ∧ 0 < b)
    (hw : w.ts.surface ≠ EGL_NO_SURFACE → 0 < w.ts.width ∧ 0 < w.ts.height) :
    ((runTask t r w).ts.surface ≠ EGL_NO_SURFACE →
      0 < (runTask t r w).ts.width ∧ 0 < (runTask t r w).ts.height) ∧
    (∀ u ∈ (runTask t r w).queue, u ∈ w.queue ∨ u = Task.requestDraw) := by
  cases t with
  | setWindow window a b =>
    have hqueue : (runTask (Task.setWindow window a b) r w).queue = w.queue :=
      (setWindowTask_frame window a b r w).1
    refine ⟨?_, fun u hu => Or.inl (by rw [hqueue] at hu; exact hu)⟩
    cases window with
    | none =>
      intro h
      exact absurd (clearSurface_surface r.unbindOk w) h
    | some win =>
      obtain ⟨o1, o2⟩ := setWindowTask_sizes w win a b r
      intro h
      cases hb : r.bindOk with
      | false => exact absurd (o1 hb) h
      | true =>
        obtain ⟨e3, e4⟩ := o2 hb
        show 0 < (setWindowTask (some win) a b r w).ts.width ∧
          0 < (setWindowTask (some win) a b r w).ts.height
        rw [e3, e4]
        exact ht win a b rfl
  | start =>
    refine ⟨hw, ?_⟩
    intro u hu
    simp only [runTask, startTask, run, requestDraw, List.mem_append, List.mem_singleton] at hu
    exact hu
  | stop => exact ⟨hw, fun u hu => Or.inl hu⟩
  | requestDraw =>
    cases hs : w.ts.isStarted with
    | false =>
      have : runTask Task.requestDraw r w = w := by simp [runTask, requestDrawTask, hs]
      rw [this]
      exact ⟨hw, fun u hu => Or.inl hu⟩
    | true =>
      have : runTask Task.requestDraw r w = draw w := by simp [runTask, requestDrawTask, hs]
      rw [this]
      obtain ⟨d1, -, d3, d4, d5, -, -⟩ := draw_frame w
      rw [d1, d3, d4, d5]
      refine ⟨hw, ?_⟩
      intro u hu
      simp only [List.mem_append, List.mem_singleton] at hu
      exact hu
  | settingsChanged rp si => exact ⟨hw, fun u hu => Or.inl hu⟩

theorem sizes_invariant (as : List Action) :
    ∀ w : World, PositiveSizes as →
      (∀ (win : Window) (a b : Int),
        Task.setWindow (some win) a b ∈ w.queue → 0 < a ∧ 0 < b) →
      (w.ts.surface ≠ EGL_NO_SURFACE → 0 < w.ts.width ∧ 0 < w.ts.height) →
      ((exec w as).ts.surface ≠ EGL_NO_SURFACE →
        0 < (exec w as).ts.width ∧ 0 < (exec w as).ts.height) := by
  induction as with
  | nil => intro w _ _ hw; exact hw
  | cons a as ih =>
    intro w hpos hqueue hw
    have hpos2 : PositiveSizes as := fun win x y h => hpos win x y (List.mem_cons_of_mem _ h)
    rw [exec_cons]
    cases a with
    | call t =>
      apply ih (act w (Action.call t)) hpos2 _ hw
      intro win x y hmem
      simp only [act, run, requestDraw, List.mem_append, List.mem_singleton] at hmem
      rcases hmem with hmem | hmem
      · exact hqueue win x y hmem
      · apply hpos win x y
        rw [hmem]
        exact List.mem_cons_self _ _
    | work r =>
      cases hq : w.queue with
      | nil =>
        have : act w (Action.work r) = w := step_nil r w hq
        rw [this]
        exact ih w hpos2 hqueue hw
      | cons t rest =>
        have hstep : act w (Action.work r) = runTask t r { w with queue := rest } :=
          step_cons r w t rest hq
        rw [hstep]
        have ht : ∀ (win : Window) (x y : Int), t = Task.setWindow (some win) x y →
            0 < x ∧ 0 < y := by
          intro win x y h
          apply hqueue win x y
          rw [hq, h]
          exact List.mem_cons_self _ _
        obtain ⟨s1, s2⟩ := runTask_sizes t r { w with queue := rest } ht hw
        apply ih _ hpos2 _ s1
        intro win x y hmem
        rcases s2 _ hmem with h | h
        · apply hqueue win x y
          rw [hq]
          exact List.mem_cons_of_mem _ h
        · cases h

/-- C8, as the code has it. From an initial world without surface and with an empty queue,
along any schedule of facade calls and worker steps in which every setWindow call that
passes a window passes a positive width and a positive height: whenever the surface is
bound, width and height are positive. -/
theorem bound_surface_has_positive_size (w0 : World)
    (hs : w0.ts.surface = EGL_NO_SURFACE) (hq : w0.queue = []) (as : List Action)
    (hpos : PositiveSizes as) :
    (exec w0 as).ts.surface ≠ EGL_NO_SURFACE →
      0 < (exec w0 as).ts.width ∧ 0 < (exec w0 as).ts.height := by
  apply sizes_invariant as w0 hpos
  · intro win a b h
    rw [hq] at h
    cases h
  · intro h
    exact absurd hs h

/-- C8 on the idle world: a window of 1080 by 1920 is bound, the renderer is started and a
frame is drawn; the surface is bound and both sizes are positive. -/
theorem bound_surface_has_positive_size_witness :
    (exec idleWorld [Action.call (Task.setWindow (some 7) 1080 1920), Action.work allOk,
      Action.call Task.start, Action.work allOk, Action.work allOk]).ts.surface
      ≠ EGL_NO_SURFACE ∧
    0 < (exec idleWorld [Action.call (Task.setWindow (some 7) 1080 1920), Action.work allOk,
      Action.call Task.start, Action.work allOk, Action.work allOk]).ts.width ∧
    0 < (exec idleWorld [Action.call (Task.setWindow (some 7) 1080 1920), Action.work allOk,
      Action.call Task.start, Action.work allOk, Action.work allOk]).ts.height :=
  have hb : (exec idleWorld [Action.call (Task.setWindow (some 7) 1080 1920),
      Action.work allOk, Action.call Task.start, Action.work allOk,
      Action.work allOk]).ts.surface ≠ EGL_NO_SURFACE := by
    decide!
  ⟨hb, bound_surface_has_positive_size idleWorld rfl rfl _
    (by
      intro win a b h
      simp at h
      obtain ⟨-, h1, h2⟩ := h
      subst h1 h2
      exact ⟨by decide, by decide⟩) hb⟩

/-- C8 fails as stated. From the idle world, a setWindow call with a window and sizes 0 by 0
is executed and EGL accepts the surface: the surface is bound while width and height are
zero. Once started, the draw cycle on that surface hands width 0 and height 0 to the
aspect-ratio division. -/
theorem zero_size_window_is_bound :
    idleWorld.ts.surface = EGL_NO_SURFACE ∧ idleWorld.queue = [] ∧
    (exec idleWorld [Action.call (Task.setWindow (some 7) 0 0), Action.work allOk]).ts.surface
      ≠ EGL_NO_SURFACE ∧
    (exec idleWorld [Action.call (Task.setWindow (some 7) 0 0), Action.work allOk]).ts.width
      = 0 ∧
    (exec idleWorld [Action.call (Task.setWindow (some 7) 0 0), Action.work allOk]).ts.height
      = 0 ∧
    ¬ (0 < (exec idleWorld [Action.call (Task.setWindow (some 7) 0 0),
          Action.work allOk]).ts.width ∧
       0 < (exec idleWorld [Action.call (Task.setWindow (some 7) 0 0),
          Action.work allOk]).ts.height) ∧
    (exec idleWorld [Action.call (Task.setWindow (some 7) 0 0), Action.work allOk,
        Action.call Task.start, Action.work allOk, Action.work allOk]).trace
      = [Event.eglCreateWindowSurface 7 1, Event.windowRelease 7, Event.eglMakeCurrent 1 true,
          Event.glClearColor, Event.glClear,
          Event.circleDraw 0 0 (Float32.ofDecimal (16666667 / 1000000000)),
          Event.swap 1] := by
  refine ⟨rfl, rfl, by decide, rfl, rfl, by decide, ?_⟩
  decide!

end Renderer
